import Mathlib

/-!
Verification development for the nest-hex CLI generation pipeline:
name-case derivation (base.generator.ts / name-transformer), relative
import-path computation (path-resolver.ts), style post-processing
(base.generator.ts applyStyleConfig), conflict/dry-run/force file writing
(file-writer.ts), and the port/service generator orchestrators.

Strings are modelled as Lean `String`s processed on their `List Char`
data; character classes and case maps are the ASCII ones used by the
JS regexes and `toLowerCase`/`toUpperCase` in the source (which agree
with these definitions on ASCII). The filesystem is modelled as an
association list from paths to contents; JS IO errors (permissions,
disk) are outside the pure model.
-/

/-! Character model: ASCII classes and case maps as used by the JS string
methods (`toLowerCase`/`toUpperCase` restricted to ASCII) and the regex
character classes `[a-z]`, `[A-Z]`, `[0-9]`, `\s`, appearing in the source. -/

def isLowerCh (c : Char) : Bool := 97 ≤ c.toNat && c.toNat ≤ 122

def isUpperCh (c : Char) : Bool := 65 ≤ c.toNat && c.toNat ≤ 90

def isDigitCh (c : Char) : Bool := 48 ≤ c.toNat && c.toNat ≤ 57

def isSpaceCh (c : Char) : Bool :=
  c.toNat = 32 || c.toNat = 9 || c.toNat = 10 || c.toNat = 13 ||
    c.toNat = 11 || c.toNat = 12

def lowCh (c : Char) : Char := if isUpperCh c then Char.ofNat (c.toNat + 32) else c

def upCh (c : Char) : Char := if isLowerCh c then Char.ofNat (c.toNat - 32) else c

example : lowCh 'A' = 'a' := by decide

example : upCh 'a' = 'A' := by decide

/-! Name transforms from src/cli/generators/base.generator.ts (same code as
src/cli/utils/name-transformer), embedded on `List Char`. -/

def isSepSU (c : Char) : Bool := isSpaceCh c || c.toNat = 95

def isSepSH (c : Char) : Bool := isSpaceCh c || c.toNat = 45

def isDelimCh (c : Char) : Bool := c.toNat = 45 || c.toNat = 95 || isSpaceCh c

def insertBoundaries (sep : Char) : List Char → List Char
  | [] => []
  | [c] => [c]
  | c1 :: c2 :: rest =>
    if (isLowerCh c1 || isDigitCh c1) && isUpperCh c2 then
      c1 :: sep :: insertBoundaries sep (c2 :: rest)
    else
      c1 :: insertBoundaries sep (c2 :: rest)

def collapseRuns (sep : Char → Bool) (rep : Char) : List Char → Bool → List Char
  | [], _ => []
  | c :: rest, inRun =>
    if sep c then
      if inRun then collapseRuns sep rep rest true
      else rep :: collapseRuns sep rep rest true
    else c :: collapseRuns sep rep rest false

def toKebabCaseL (cs : List Char) : List Char :=
  (collapseRuns isSepSU '-' (insertBoundaries '-' cs) false).map lowCh

def toSnakeCaseL (cs : List Char) : List Char :=
  (collapseRuns isSepSH '_' (insertBoundaries '_' cs) false).map lowCh

def camelCollapse : List Char → Bool → List Char
  | [], _ => []
  | c :: rest, afterDelim =>
    if isDelimCh c then camelCollapse rest true
    else if afterDelim then upCh c :: camelCollapse rest false
    else c :: camelCollapse rest false

def lowerFirst : List Char → List Char
  | [] => []
  | c :: rest => if isUpperCh c then lowCh c :: rest else c :: rest

def upperFirst : List Char → List Char
  | [] => []
  | c :: rest => upCh c :: rest

def toCamelCaseL (cs : List Char) : List Char := lowerFirst (camelCollapse cs false)

def toPascalCaseL (cs : List Char) : List Char := upperFirst (toCamelCaseL cs)

def toScreamingSnakeCaseL (cs : List Char) : List Char := (toSnakeCaseL cs).map upCh

def toKebabCase (s : String) : String := ⟨toKebabCaseL s.data⟩

def toCamelCase (s : String) : String := ⟨toCamelCaseL s.data⟩

def toPascalCase (s : String) : String := ⟨toPascalCaseL s.data⟩

def toSnakeCase (s : String) : String := ⟨toSnakeCaseL s.data⟩

def toScreamingSnakeCase (s : String) : String := ⟨toScreamingSnakeCaseL s.data⟩

structure NameVariations where
  original : String
  kebab : String
  camel : String
  pascal : String
  snake : String
  screamingSnake : String
  deriving Repr, DecidableEq

def generateNameVariations (name : String) : NameVariations :=
  { original := name
    kebab := toKebabCase name
    camel := toCamelCase name
    pascal := toPascalCase name
    snake := toSnakeCase name
    screamingSnake := toScreamingSnakeCase name }

-- sanity checks mirroring the repository's own unit tests
example : toKebabCase "ObjectStorage" = "object-storage" := by decide

example : toKebabCase "HTTPClient" = "httpclient" := by decide

example : toKebabCase "OAuth2Client" = "oauth2-client" := by decide

example : toKebabCase "s3Storage" = "s3-storage" := by decide

example : toCamelCase "object_storage" = "objectStorage" := by decide

example : toCamelCase "HTTPSConnection" = "hTTPSConnection" := by decide

example : toCamelCase "API" = "aPI" := by decide

example : toCamelCase "Storage" = "storage" := by decide

example : toPascalCase "object-storage" = "ObjectStorage" := by decide

example : toSnakeCase "objectStorage" = "object_storage" := by decide

example : toSnakeCase "s3-storage-v2" = "s3_storage_v2" := by decide

example : toScreamingSnakeCase "object-storage" = "OBJECT_STORAGE" := by decide

example : toKebabCase "object-storage_provider" = "object-storage-provider" := by decide

example : toKebabCase "" = "" := by decide

example : toScreamingSnakeCase "a" = "A" := by decide

example : toCamelCase "OBJECT_STORAGE" = "oBJECTSTORAGE" := by decide

/-! Reference Name Variation Engine, following the words of the spec
(§4.1): split into words on delimiter runs and on lowercase/digit to
uppercase transitions, keep uppercase runs together, lowercase the words,
then join/capitalize per casing. -/

def specWordsAux : List Char → List Char → List (List Char)
  | acc, [] => if acc.isEmpty then [] else [acc.reverse]
  | acc, c :: rest =>
    if isDelimCh c then
      if acc.isEmpty then specWordsAux [] rest
      else acc.reverse :: specWordsAux [] rest
    else if isUpperCh c && !acc.isEmpty &&
        (isLowerCh (acc.headD ' ') || isDigitCh (acc.headD ' ')) then
      acc.reverse :: specWordsAux [c] rest
    else
      specWordsAux (c :: acc) rest

def specWords (cs : List Char) : List (List Char) :=
  (specWordsAux [] cs).map (fun w => w.map lowCh)

def joinSep (sep : Char) : List (List Char) → List Char
  | [] => []
  | [w] => w
  | w :: ws => w ++ sep :: joinSep sep ws

def capWord (w : List Char) : List Char := upperFirst w

def specKebabL (cs : List Char) : List Char := joinSep '-' (specWords cs)

def specSnakeL (cs : List Char) : List Char := joinSep '_' (specWords cs)

def specScreamingL (cs : List Char) : List Char := (specSnakeL cs).map upCh

def specPascalL (cs : List Char) : List Char := ((specWords cs).map capWord).flatten

def specCamelL (cs : List Char) : List Char := lowerFirst (specPascalL cs)

def specKebab (s : String) : String := ⟨specKebabL s.data⟩

def specCamel (s : String) : String := ⟨specCamelL s.data⟩

def specPascal (s : String) : String := ⟨specPascalL s.data⟩

def specSnake (s : String) : String := ⟨specSnakeL s.data⟩

def specScreamingSnake (s : String) : String := ⟨specScreamingL s.data⟩

example : specCamel "API" = "api" := by decide

example : specPascal "API" = "Api" := by decide

example : specKebab "XMLParser" = "xmlparser" := by decide

example : specKebab "objectStorage" = "object-storage" := by decide

example : specCamel "OBJECT_STORAGE" = "objectStorage" := by decide

example : specPascal "object-storage" = "ObjectStorage" := by decide

example : specSnake "a--b" = "a_b" := by decide

example : toSnakeCase "a--b" = "a_b" := by decide

example : toKebabCase "a--b" = "a--b" := by decide

example : specKebab "a--b" = "a-b" := by decide

/-! Word-level lemmas used to settle the casing claims. A `lowWord` is a
nonempty run of lowercase letters or digits; a `strongWord` additionally
starts with a lowercase letter and has at least two characters. -/

def ldCh (c : Char) : Bool := isLowerCh c || isDigitCh c

def lowWord (w : List Char) : Bool := !w.isEmpty && w.all ldCh

def strongWord : List Char → Bool
  | [] => false
  | c :: t => isLowerCh c && !t.isEmpty && t.all ldCh

def camelTail (ws : List (List Char)) : List Char := (ws.map capWord).flatten

def camelForm : List (List Char) → List Char
  | [] => []
  | w :: ws => w ++ camelTail ws

def sameDerived (a b : NameVariations) : Prop :=
  a.kebab = b.kebab ∧ a.camel = b.camel ∧ a.pascal = b.pascal ∧
    a.snake = b.snake ∧ a.screamingSnake = b.screamingSnake

instance (a b : NameVariations) : Decidable (sameDerived a b) := by
  unfold sameDerived
  infer_instance

def FS : Type := List (String × String)

instance : DecidableEq FS :=
  inferInstanceAs (DecidableEq (List (String × String)))

def existsFile (fs : FS) (p : String) : Bool := fs.any (fun e => e.1 = p)

def readFile (fs : FS) (p : String) : Option String :=
  (fs.find? (fun e => e.1 = p)).map (fun e => e.2)

def setFile (fs : FS) (p c : String) : FS :=
  (p, c) :: fs.filter (fun e => !(e.1 = p))

structure WriteOptions where
  force : Bool := false
  dryRun : Bool := false

structure WriteResult where
  success : Bool
  path : String
  existed : Bool
  written : Bool
  message : Option String
  deriving Repr, DecidableEq

def conflictMsg : String := "File already exists. Use --force to overwrite."

def dryRunMsg : String := "Dry run - file not written"

def writeFile (fs : FS) (filePath content : String) (options : WriteOptions) :
    WriteResult × FS :=
  let force := options.force
  let dryRun := options.dryRun
  let existed := existsFile fs filePath
  if existed && !force && !dryRun then
    ({ success := false, path := filePath, existed := true, written := false,
       message := some conflictMsg }, fs)
  else if dryRun then
    ({ success := true, path := filePath, existed := existed, written := false,
       message := some dryRunMsg }, fs)
  else
    ({ success := true, path := filePath, existed := existed, written := true,
       message := some (if existed then "File overwritten" else "File created") },
      setFile fs filePath content)

def isDotCh (c : Char) : Bool :=
  !(c.toNat = 10 || c.toNat = 13 || c.toNat = 8232 || c.toNat = 8233)

def matchImportTail (cs : List Char) : Option (List Char × List Char) :=
  let wsLen := (cs.takeWhile isSpaceCh).length
  if wsLen = 0 then none
  else
    let afterWs := cs.drop wsLen
    if afterWs.take 4 = ['f', 'r', 'o', 'm'] then
      let cs2 := afterWs.drop 4
      let ws2 := (cs2.takeWhile isSpaceCh).length
      if ws2 = 0 then none
      else
        match cs2.drop ws2 with
        | '\'' :: cs4 =>
          let q := cs4.takeWhile (fun c => !(c = '\''))
          if q.isEmpty then none
          else
            match cs4.drop q.length with
            | '\'' :: rest => some (q, rest)
            | _ => none
        | _ => none
    else none

def matchImportC : List Char → List Char → Option (List Char × List Char × List Char)
  | [], _ => none
  | c :: rest, acc =>
    if isDotCh c then
      match matchImportTail rest with
      | some (q, after) => some ((c :: acc).reverse, q, after)
      | none => matchImportC rest (c :: acc)
    else none

def buildImportRepl (g1 q : List Char) : List Char :=
  ("import ").data ++ g1 ++ (" from ").data ++ '"' :: (q ++ ['"'])

def tryImportBC (run rest : List Char) : Nat → Option (List Char × List Char)
  | 0 => none
  | Nat.succ b' =>
    match matchImportC (run.drop (Nat.succ b') ++ rest) [] with
    | some (g1, q, after) => some (buildImportRepl g1 q, after)
    | none => tryImportBC run rest b'

def importKw : List Char := ['i', 'm', 'p', 'o', 'r', 't']

def replaceImportsGo : Nat → List Char → List Char
  | 0, cs => cs
  | Nat.succ fuel, cs =>
    match cs with
    | [] => []
    | c :: rest =>
      if cs.take 6 = importKw then
        let afterLit := cs.drop 6
        let run := afterLit.takeWhile isSpaceCh
        if run.isEmpty then c :: replaceImportsGo fuel rest
        else
          match tryImportBC run (afterLit.drop run.length) run.length with
          | some (repl, after) => repl ++ replaceImportsGo fuel after
          | none => c :: replaceImportsGo fuel rest
      else c :: replaceImportsGo fuel rest

def replaceImports (cs : List Char) : List Char := replaceImportsGo cs.length cs

def symbolOpen : List Char := ['S', 'y', 'm', 'b', 'o', 'l', '(', '\'']

def replaceSymbolsGo : Nat → List Char → List Char
  | 0, cs => cs
  | Nat.succ fuel, cs =>
    match cs with
    | [] => []
    | c :: rest =>
      if cs.take 8 = symbolOpen then
        let cs2 := cs.drop 8
        let q := cs2.takeWhile (fun c => !(c = '\''))
        if q.isEmpty then c :: replaceSymbolsGo fuel rest
        else
          match cs2.drop q.length with
          | '\'' :: ')' :: after =>
            (['S', 'y', 'm', 'b', 'o', 'l', '(', '"'] ++ q ++ ['"', ')']) ++
              replaceSymbolsGo fuel after
          | _ => c :: replaceSymbolsGo fuel rest
      else c :: replaceSymbolsGo fuel rest

def replaceSymbols (cs : List Char) : List Char := replaceSymbolsGo cs.length cs

def exportKw : List Char := ['e', 'x', 'p', 'o', 'r', 't']

def dropTrailingWs (l : List Char) : List Char :=
  (l.reverse.dropWhile isSpaceCh).reverse

def trailingWs (l : List Char) : List Char :=
  (l.reverse.takeWhile isSpaceCh).reverse

def trimWs (l : List Char) : List Char :=
  dropTrailingWs (l.dropWhile isSpaceCh)

def isExportLine (l : List Char) : Bool :=
  l.take 6 = exportKw &&
    (match l.drop 6 with
     | c :: _ :: _ => isSpaceCh c
     | _ => false)

def endsWithCh (l : List Char) (c : Char) : Bool :=
  match l.getLast? with
  | some x => x = c
  | none => false

def startsWithSlashes (l : List Char) : Bool :=
  l.take 2 = ['/', '/']

def semiG1 (l : List Char) : List Char :=
  if (l.drop 6).all isSpaceCh then l else dropTrailingWs l

def semiG2 (l : List Char) : List Char :=
  if (l.drop 6).all isSpaceCh then [] else trailingWs l

def semiSkip (trimmed : List Char) : Bool :=
  startsWithSlashes trimmed || trimmed.isEmpty ||
    endsWithCh trimmed ';' || endsWithCh trimmed '{'

def semiAddLine (l : List Char) : List Char :=
  if isExportLine l then
    if semiSkip (trimWs (semiG1 l)) then l
    else semiG1 l ++ ';' :: semiG2 l
  else l

def semiStripLine (l : List Char) : List Char :=
  let t := dropTrailingWs l
  if endsWithCh t ';' then t.dropLast ++ trailingWs l else l

def splitNl : List Char → List (List Char)
  | [] => [[]]
  | c :: rest =>
    if c = '\n' then [] :: splitNl rest
    else
      match splitNl rest with
      | s :: ss => (c :: s) :: ss
      | [] => [[c]]

def mapLines (g : List Char → List Char) (cs : List Char) : List Char :=
  joinSep '\n' ((splitNl cs).map g)

inductive QuoteOpt where
  | single
  | double
  deriving Repr, DecidableEq

inductive IndentOpt where
  | tab
  | spaces (n : Nat)
  deriving Repr, DecidableEq

inductive FileCase where
  | kebab
  | camel
  | pascal
  deriving Repr, DecidableEq

def expandTabs (n : Nat) (cs : List Char) : List Char :=
  cs.flatMap (fun c => if c = '\t' then List.replicate n ' ' else [c])

structure StyleProfile where
  quotes : QuoteOpt
  semicolons : Bool
  indent : IndentOpt
  deriving Repr, DecidableEq

def applyStyleConfigL (style : StyleProfile) (content : List Char) : List Char :=
  let styled := content
  let styled :=
    if style.quotes = QuoteOpt.double then replaceSymbols (replaceImports styled)
    else styled
  let styled :=
    if style.semicolons then mapLines semiAddLine styled
    else mapLines semiStripLine styled
  let styled :=
    match style.indent with
    | IndentOpt.tab => styled
    | IndentOpt.spaces n => expandTabs n styled
  styled

def applyStyleConfig (style : StyleProfile) (content : String) : String :=
  String.mk (applyStyleConfigL style content.data)

-- sanity checks of the style passes
example : applyStyleConfig ⟨QuoteOpt.double, true, IndentOpt.spaces 2⟩

    "import { A } from 'nest-hex'\nexport const T = Symbol('T')" =
    "import { A } from \"nest-hex\"\nexport const T = Symbol(\"T\");" := by decide
example : applyStyleConfig ⟨QuoteOpt.single, false, IndentOpt.tab⟩

    "export const x = 1;\n" = "export const x = 1\n" := by decide
example : applyStyleConfig ⟨QuoteOpt.single, true, IndentOpt.tab⟩
    "export interface X \x7b\n\tfoo(): void\n\x7d" =
    "export interface X \x7b\n\tfoo(): void\n\x7d" := by decide

structure NestHexConfig where
  portsDir : Option String := none
  adaptersDir : Option String := none
  portSuffix : Option String := none
  adapterSuffix : Option String := none
  fileCase : Option FileCase := none
  indent : Option IndentOpt := none
  quotes : Option QuoteOpt := none
  semicolons : Option Bool := none

structure GeneratorOptions where
  name : String
  outputPath : Option String := none
  includeService : Option Bool := none
  includeModule : Option Bool := none
  force : Option Bool := none
  dryRun : Option Bool := none

structure GeneratorContext where
  names : NameVariations
  fileName : String
  fileCase : FileCase
  portSuffix : String
  adapterSuffix : String
  style : StyleProfile
  includeService : Bool
  includeModule : Bool

def getFileName (name : String) (fileCase : FileCase) : String :=
  match fileCase with
  | FileCase.camel => (generateNameVariations name).camel
  | FileCase.pascal => (generateNameVariations name).pascal
  | FileCase.kebab => (generateNameVariations name).kebab

def createTemplateContext (config : NestHexConfig) (options : GeneratorOptions) :
    GeneratorContext :=
  let names := generateNameVariations options.name
  let fileCase := config.fileCase.getD FileCase.kebab
  { names := names
    fileName := getFileName options.name fileCase
    fileCase := fileCase
    portSuffix := config.portSuffix.getD "PORT"
    adapterSuffix := config.adapterSuffix.getD "Adapter"
    style :=
      { quotes := config.quotes.getD QuoteOpt.single
        semicolons := config.semicolons.getD true
        indent := config.indent.getD IndentOpt.tab }
    includeService := options.includeService.getD true
    includeModule := options.includeModule.getD true }

def joinPath (a b : String) : String := a ++ "/" ++ b

def resolvePath (p : String) : String := p

def getTemplateDir (t : String) : String := joinPath "src/cli/templates" t

structure FileToGenerate where
  path : String
  content : String

structure GeneratorResult where
  success : Bool
  files : List String
  message : String
  deriving Repr, DecidableEq

def joinStrings (sep : String) : List String → String
  | [] => ""
  | [s] => s
  | s :: rest => s ++ sep ++ joinStrings sep rest

def generateFilesGo (dryRun force : Bool) :
    List FileToGenerate → FS → List String → List (String × String) →
    (Except String (List String)) × FS
  | [], fs, generated, failures =>
    if failures.isEmpty then (Except.ok generated.reverse, fs)
    else
      (Except.error
        ("Failed to generate " ++ toString failures.length ++ " file(s):\n" ++
          joinStrings "\n"
            (failures.reverse.map (fun f => "  - " ++ f.1 ++ ": " ++ f.2))), fs)
  | f :: rest, fs, generated, failures =>
    let r := writeFile fs f.path f.content ⟨force, dryRun⟩
    if r.1.success then
      generateFilesGo dryRun force rest r.2 (f.path :: generated) failures
    else
      generateFilesGo dryRun force rest r.2 generated
        ((f.path, r.1.message.getD "Unknown error") :: failures)

def generateFiles (files : List FileToGenerate) (fs : FS) (dryRun force : Bool) :
    (Except String (List String)) × FS :=
  generateFilesGo dryRun force files fs [] []

def portGenFiles (config : NestHexConfig) (render : String → String)
    (options : GeneratorOptions) : List FileToGenerate :=
  let context := createTemplateContext config options
  let templateDir := getTemplateDir "port"
  let outputDir := options.outputPath.getD (resolvePath (config.portsDir.getD "src/ports"))
  let fileName := getFileName options.name context.fileCase
  let portDir := joinPath outputDir fileName
  ([⟨joinPath portDir (fileName ++ ".port.ts"),
      applyStyleConfig context.style (render (joinPath templateDir "interface.hbs"))⟩,
    ⟨joinPath portDir (fileName ++ ".token.ts"),
      applyStyleConfig context.style (render (joinPath templateDir "token.hbs"))⟩] ++
   (if context.includeService then
      [⟨joinPath portDir (fileName ++ ".service.ts"),
        applyStyleConfig context.style (render (joinPath templateDir "service.hbs"))⟩]
    else []) ++
   (if context.includeModule then
      [⟨joinPath portDir (fileName ++ ".module.ts"),
        applyStyleConfig context.style (render (joinPath templateDir "module.hbs"))⟩]
    else []) ++
   [⟨joinPath portDir "index.ts",
      applyStyleConfig context.style (render (joinPath templateDir "index.hbs"))⟩])

def portGenerate (config : NestHexConfig) (render : String → String)
    (options : GeneratorOptions) (fs : FS) : (Except String GeneratorResult) × FS :=
  let context := createTemplateContext config options
  let files := portGenFiles config render options
  match generateFiles files fs (options.dryRun.getD false) false with
  | (Except.error e, fs2) => (Except.error e, fs2)
  | (Except.ok generated, fs2) =>
    (Except.ok
      { success := true, files := generated,
        message := "Successfully generated port files for " ++ context.names.pascal }, fs2)

def serviceGenFiles (config : NestHexConfig) (render : String → String)
    (options : GeneratorOptions) : List FileToGenerate :=
  let context := createTemplateContext config options
  let templateDir := getTemplateDir "service"
  let outputDir := options.outputPath.getD (resolvePath (config.portsDir.getD "src/services"))
  let serviceDir := joinPath outputDir context.names.kebab
  [⟨joinPath serviceDir (context.names.kebab ++ ".service.ts"),
    render (joinPath templateDir "injectable-service.hbs")⟩]

def serviceGenerate (config : NestHexConfig) (render : String → String)
    (options : GeneratorOptions) (fs : FS) : (Except String GeneratorResult) × FS :=
  let files := serviceGenFiles config render options
  match generateFiles files fs (options.dryRun.getD false) false with
  | (Except.error e, fs2) => (Except.error e, fs2)
  | (Except.ok generated, fs2) =>
    (Except.ok
      { success := true, files := generated,
        message := "Successfully generated " ++ toString generated.length ++
          " service file" ++ (if generated.length ≠ 1 then "s" else "") }, fs2)

def portPaths (config : NestHexConfig) (options : GeneratorOptions) : List String :=
  (portGenFiles config (fun _ => "") options).map (fun f => f.path)

instance {α β : Type} [DecidableEq α] [DecidableEq β] : DecidableEq (Except α β) :=
  fun a b =>
    match a, b with
    | Except.error x, Except.error y =>
      decidable_of_iff (x = y) ⟨fun h => by rw [h], fun h => by cases h; rfl⟩
    | Except.error _, Except.ok _ => isFalse (fun h => by cases h)
    | Except.ok _, Except.error _ => isFalse (fun h => by cases h)
    | Except.ok x, Except.ok y =>
      decidable_of_iff (x = y) ⟨fun h => by rw [h], fun h => by cases h; rfl⟩

def isErr (e : Except String GeneratorResult) : Bool :=
  match e with
  | Except.error _ => true
  | Except.ok _ => false

def containsStr (hay sub : String) : Prop := ∃ l r, hay = l ++ sub ++ r

def portPathsSpec (config : NestHexConfig) (options : GeneratorOptions) : List String :=
  let fn := getFileName options.name (config.fileCase.getD FileCase.kebab)
  let dir := joinPath (options.outputPath.getD (config.portsDir.getD "src/ports")) fn
  [joinPath dir (fn ++ ".port.ts"), joinPath dir (fn ++ ".token.ts")] ++
    (if options.includeService.getD true then [joinPath dir (fn ++ ".service.ts")] else []) ++
    (if options.includeModule.getD true then [joinPath dir (fn ++ ".module.ts")] else []) ++
    [joinPath dir "index.ts"]

def commonPrefixLen : List String → List String → Nat
  | a :: as, b :: bs => if a = b then commonPrefixLen as bs + 1 else 0
  | _, _ => 0

def relSegs (fromP toP : List String) : List String :=
  List.replicate (fromP.length - commonPrefixLen fromP toP) ".." ++
    toP.drop (commonPrefixLen fromP toP)

def renderSlash (segs : List String) : String := joinStrings "/" segs

def replaceBackslash (s : String) : String :=
  String.mk (s.data.map (fun c => if c = '\\' then '/' else c))

def getRelativePathSegs (fromP toP : List String) : String :=
  replaceBackslash (renderSlash (relSegs fromP toP))

def stripExtL (cs : List Char) : List Char :=
  if cs.drop (cs.length - 3) = ['.', 't', 's'] ∨ cs.drop (cs.length - 3) = ['.', 'j', 's'] then
    cs.take (cs.length - 3)
  else cs

def startsWithDot (cs : List Char) : Bool :=
  match cs with
  | '.' :: _ => true
  | _ => false

def getImportPathSegs (fromP toP : List String) : String :=
  let rel := getRelativePathSegs fromP.dropLast toP
  let withoutExt := stripExtL rel.data
  if startsWithDot withoutExt then String.mk withoutExt else "./" ++ String.mk withoutExt

-- sanity checks mirroring the repository's path-resolver tests
example : getImportPathSegs ["src", "ports", "object-storage", "index.ts"]

    ["src", "ports", "object-storage", "object-storage.token.ts"] =
    "./object-storage.token" := by decide
example : getImportPathSegs ["src", "adapters", "s3", "s3.adapter.ts"]

    ["src", "adapters", "base.adapter.ts"] = "../base.adapter" := by decide
example : getImportPathSegs ["src", "adapters", "s3.js"] ["src", "ports", "storage.js"] =
    "../ports/storage" := by decide

theorem ofNat_toNat_lt (n : Nat) (h : n < 55296) : (Char.ofNat n).toNat = n := by
  have hv : n.isValidChar := Or.inl h
  simp [Char.ofNat, hv, Char.ofNatAux, Char.toNat, UInt32.toNat]

theorem toNat_lowCh_upper (c : Char) (h : isUpperCh c = true) :
    (lowCh c).toNat = c.toNat + 32 := by
  simp [isUpperCh] at h
  rw [lowCh, if_pos (by simp [isUpperCh]; omega)]
  exact ofNat_toNat_lt _ (by omega)

theorem toNat_upCh_lower (c : Char) (h : isLowerCh c = true) :
    (upCh c).toNat = c.toNat - 32 := by
  simp [isLowerCh] at h
  rw [upCh, if_pos (by simp [isLowerCh]; omega)]
  exact ofNat_toNat_lt _ (by omega)

theorem lowCh_eq_self (c : Char) (h : isUpperCh c = false) : lowCh c = c := by
  rw [lowCh, if_neg]; simp [h]

theorem upCh_eq_self (c : Char) (h : isLowerCh c = false) : upCh c = c := by
  rw [upCh, if_neg]; simp [h]

theorem isLowerCh_lowCh (c : Char) :
    isLowerCh (lowCh c) = (isLowerCh c || isUpperCh c) := by
  by_cases h : isUpperCh c = true
  · have := toNat_lowCh_upper c h
    simp [isUpperCh] at h
    simp [isLowerCh, isUpperCh, this, h]
  · simp at h
    rw [lowCh_eq_self c h, h]
    simp

theorem isUpperCh_lowCh (c : Char) : isUpperCh (lowCh c) = false := by
  by_cases h : isUpperCh c = true
  · have := toNat_lowCh_upper c h
    simp [isUpperCh] at h ⊢
    omega
  · simp at h; rw [lowCh_eq_self c h]; exact h

theorem isDigitCh_lowCh (c : Char) : isDigitCh (lowCh c) = isDigitCh c := by
  by_cases h : isUpperCh c = true
  · have ht := toNat_lowCh_upper c h
    simp [isUpperCh] at h
    have h1 : isDigitCh (lowCh c) = false := by simp [isDigitCh, ht]; omega
    have h2 : isDigitCh c = false := by simp [isDigitCh]; omega
    rw [h1, h2]
  · simp at h; rw [lowCh_eq_self c h]

theorem charEq_of_toNat {a b : Char} (h : a.toNat = b.toNat) : a = b :=
  Char.ext (UInt32.ext h)

theorem lowCh_upCh (c : Char) (h : isLowerCh c = true) : lowCh (upCh c) = c := by
  have ht := toNat_upCh_lower c h
  simp [isLowerCh] at h
  have : isUpperCh (upCh c) = true := by simp [isUpperCh, ht]; omega
  have h2 := toNat_lowCh_upper _ this
  rw [ht] at h2
  exact charEq_of_toNat (by omega)

theorem ldCh_not_upper (c : Char) (h : ldCh c = true) : isUpperCh c = false := by
  simp [ldCh, isLowerCh, isDigitCh] at h
  simp [isUpperCh]
  omega

theorem ldCh_not_delim (c : Char) (h : ldCh c = true) : isDelimCh c = false := by
  simp [ldCh, isLowerCh, isDigitCh] at h
  simp [isDelimCh, isSpaceCh]
  omega

theorem insertBoundaries_no_upper (sep : Char) (cs : List Char)
    (h : ∀ c ∈ cs, isUpperCh c = false) : insertBoundaries sep cs = cs := by
  induction cs with
  | nil => rfl
  | cons c1 rest ih =>
    cases rest with
    | nil => rfl
    | cons c2 r =>
      rw [insertBoundaries, if_neg (by simp [h c2 (by simp)])]
      rw [ih (fun c hc => h c (by simp [hc]))]

theorem collapseRuns_no_sep (sep : Char → Bool) (rep : Char) (cs : List Char)
    (b : Bool) (h : ∀ c ∈ cs, sep c = false) :
    collapseRuns sep rep cs b = cs := by
  induction cs generalizing b with
  | nil => rfl
  | cons c rest ih =>
    rw [collapseRuns, if_neg (by simp [h c (by simp)])]
    rw [ih false (fun c hc => h c (by simp [hc]))]

theorem camelCollapse_no_delim (cs : List Char)
    (h : ∀ c ∈ cs, isDelimCh c = false) : camelCollapse cs false = cs := by
  induction cs with
  | nil => rfl
  | cons c rest ih =>
    rw [camelCollapse, if_neg (by simp [h c (by simp)]), if_neg (by simp)]
    rw [ih (fun c hc => h c (by simp [hc]))]

theorem map_lowCh_no_upper (cs : List Char)
    (h : ∀ c ∈ cs, isUpperCh c = false) : cs.map lowCh = cs := by
  induction cs with
  | nil => rfl
  | cons c rest ih =>
    simp only [List.map_cons]
    rw [lowCh_eq_self c (h c (by simp)), ih (fun c hc => h c (by simp [hc]))]

theorem strongWord_parts (w : List Char) (h : strongWord w = true) :
    ∃ c t, w = c :: t ∧ isLowerCh c = true ∧ t ≠ [] ∧ (∀ x ∈ t, ldCh x = true) := by
  match w with
  | [] => simp [strongWord] at h
  | c :: t =>
    rw [strongWord, Bool.and_eq_true, Bool.and_eq_true] at h
    refine ⟨c, t, rfl, h.1.1, ?_, ?_⟩
    · intro ht; subst ht; simp at h
    · intro x hx
      exact List.all_eq_true.mp h.2 x hx

theorem strongWord_ld (w : List Char) (h : strongWord w = true) : ∀ c ∈ w, ldCh c = true := by
  obtain ⟨c, t, rfl, h1, _, h3⟩ := strongWord_parts w h
  intro x hx
  rcases List.mem_cons.mp hx with h4 | h4
  · subst h4; simp [ldCh, h1]
  · exact h3 x h4

theorem lowWord_of_strong (w : List Char) (h : strongWord w = true) : lowWord w = true := by
  obtain ⟨c, t, rfl, _, _, _⟩ := strongWord_parts w h
  simp [lowWord, List.all_eq_true]
  have := strongWord_ld _ h
  exact ⟨this c (by simp), fun x hx => this x (by simp [hx])⟩

theorem ldCh_upCh_lower (c : Char) (h : isLowerCh c = true) : ldCh (upCh c) = false := by
  have ht := toNat_upCh_lower c h
  simp [isLowerCh] at h
  simp [ldCh, isLowerCh, isDigitCh, ht]
  omega

theorem isUpperCh_upCh_lower (c : Char) (h : isLowerCh c = true) : isUpperCh (upCh c) = true := by
  have ht := toNat_upCh_lower c h
  simp [isLowerCh] at h
  simp [isUpperCh, ht]
  omega

theorem insertBoundaries_ld_append (sep : Char) (w cs : List Char)
    (hw : ∀ c ∈ w, ldCh c = true) (hne : w ≠ [])
    (hcs : cs ≠ []) (hup : isUpperCh (cs.headD 'A') = true) :
    insertBoundaries sep (w ++ cs) = w ++ sep :: insertBoundaries sep cs := by
  induction w with
  | nil => exact absurd rfl hne
  | cons c t ih =>
    cases t with
    | nil =>
      cases cs with
      | nil => exact absurd rfl hcs
      | cons c2 r =>
        simp at hup
        have hld := hw c (by simp)
        simp only [List.singleton_append, insertBoundaries, ldCh] at *
        rw [if_pos (by simp [hup]; simp [ldCh] at hld; exact hld)]
    | cons c2 t' =>
      have hld2 := hw c2 (by simp)
      simp only [List.cons_append, insertBoundaries]
      rw [if_neg (by simp [ldCh_not_upper c2 hld2])]
      have := ih (fun x hx => hw x (by simp at hx ⊢; tauto)) (by simp)
      simp only [List.cons_append, List.append_eq] at this ⊢
      rw [this]

theorem insertBoundaries_not_ld_head (sep : Char) (u : Char) (cs : List Char)
    (hu : ldCh u = false) :
    insertBoundaries sep (u :: cs) = u :: insertBoundaries sep cs := by
  cases cs with
  | nil => rfl
  | cons c2 r =>
    rw [insertBoundaries, if_neg (fun hc => by
      rw [Bool.and_eq_true] at hc
      have hc1 : ldCh u = true := hc.1
      rw [hu] at hc1
      cases hc1)]

theorem camelTail_head (ws : List (List Char)) (hws : ∀ w ∈ ws, strongWord w = true)
    (hne : ws ≠ []) :
    ∃ h2 rest2, camelTail ws = upCh h2 :: rest2 ∧ isLowerCh h2 = true := by
  cases ws with
  | nil => exact absurd rfl hne
  | cons w ws' =>
    obtain ⟨c, t, rfl, h1, _, _⟩ := strongWord_parts w (hws w (by simp))
    exact ⟨c, t ++ camelTail ws', by simp [camelTail, capWord, upperFirst], h1⟩

theorem joinSep_cons (sep : Char) (w : List Char) (ws : List (List Char)) (h : ws ≠ []) :
    joinSep sep (w :: ws) = w ++ sep :: joinSep sep ws := by
  cases ws with
  | nil => exact absurd rfl h
  | cons w2 r => rfl

theorem insertBoundaries_camelTail (sep : Char) (ws : List (List Char))
    (hws : ∀ w ∈ ws, strongWord w = true) :
    insertBoundaries sep (camelTail ws) = joinSep sep (ws.map capWord) := by
  induction ws with
  | nil => rfl
  | cons w ws' ih =>
    obtain ⟨c, t, rfl, h1, h2, h3⟩ := strongWord_parts w (hws w (by simp))
    have hct : camelTail ((c :: t) :: ws') = upCh c :: (t ++ camelTail ws') := by
      simp [camelTail, capWord, upperFirst]
    rw [hct, insertBoundaries_not_ld_head sep _ _ (ldCh_upCh_lower c h1)]
    by_cases hz : ws' = []
    · subst hz
      simp only [camelTail, List.map_nil, List.flatten_nil, List.append_nil]
      rw [insertBoundaries_no_upper sep t (fun x hx => ldCh_not_upper x (h3 x hx))]
      simp [joinSep, capWord, upperFirst]
    · obtain ⟨h2c, rest2, hh, hl⟩ := camelTail_head ws' (fun x hx => hws x (by simp [hx])) hz
      rw [insertBoundaries_ld_append sep t _ h3 h2 (by rw [hh]; simp)
        (by rw [hh]; simp [isUpperCh_upCh_lower h2c hl])]
      rw [ih (fun x hx => hws x (by simp [hx]))]
      rw [List.map_cons, joinSep_cons sep _ _ (by simp [hz])]
      simp [capWord, upperFirst]

theorem insertBoundaries_camelForm (sep : Char) (ws : List (List Char))
    (hws : ∀ w ∈ ws, strongWord w = true) :
    insertBoundaries sep (camelForm ws) =
      joinSep sep (match ws with | [] => [] | w :: ws' => w :: ws'.map capWord) := by
  cases ws with
  | nil => rfl
  | cons w ws' =>
    obtain ⟨c, t, rfl, h1, h2, h3⟩ := strongWord_parts w (hws w (by simp))
    show insertBoundaries sep ((c :: t) ++ camelTail ws') = _
    by_cases hz : ws' = []
    · subst hz
      simp only [camelTail, List.map_nil, List.flatten_nil, List.append_nil]
      rw [insertBoundaries_no_upper sep _ (fun x hx => ldCh_not_upper x (strongWord_ld _ (hws _ (by simp)) x hx))]
      rfl
    · obtain ⟨h2c, rest2, hh, hl⟩ := camelTail_head ws' (fun x hx => hws x (by simp [hx])) hz
      rw [insertBoundaries_ld_append sep (c :: t) _ (strongWord_ld _ (hws _ (by simp))) (by simp)
        (by rw [hh]; simp) (by rw [hh]; simp [isUpperCh_upCh_lower h2c hl])]
      rw [insertBoundaries_camelTail sep ws' (fun x hx => hws x (by simp [hx]))]
      show _ = joinSep sep ((c :: t) :: ws'.map capWord)
      rw [joinSep_cons sep _ _ (by simp [hz])]

theorem mem_joinSep (sep : Char) (ws : List (List Char)) (c : Char)
    (hc : c ∈ joinSep sep ws) : c = sep ∨ ∃ w ∈ ws, c ∈ w := by
  induction ws with
  | nil => simp [joinSep] at hc
  | cons w ws' ih =>
    cases ws' with
    | nil =>
      simp [joinSep] at hc
      exact Or.inr ⟨w, by simp, hc⟩
    | cons w2 r =>
      rw [joinSep_cons sep w _ (by simp)] at hc
      rcases List.mem_append.mp hc with h | h
      · exact Or.inr ⟨w, by simp, h⟩
      · rcases List.mem_cons.mp h with h | h
        · exact Or.inl h
        · rcases ih h with h | ⟨w', hw', hcw'⟩
          · exact Or.inl h
          · exact Or.inr ⟨w', by simp [hw'], hcw'⟩

theorem delim_not_upper (c : Char) (h : isDelimCh c = true) : isUpperCh c = false := by
  simp [isDelimCh, isSpaceCh] at h
  simp [isUpperCh]
  omega

theorem insertBoundaries_joinSep_low (sep d : Char) (ws : List (List Char))
    (hd : isDelimCh d = true) (hws : ∀ w ∈ ws, lowWord w = true) :
    insertBoundaries sep (joinSep d ws) = joinSep d ws := by
  apply insertBoundaries_no_upper
  intro c hc
  rcases mem_joinSep d ws c hc with h | ⟨w, hw, hcw⟩
  · subst h; exact delim_not_upper c hd
  · have hlw := hws w hw
    rw [lowWord, Bool.and_eq_true] at hlw
    exact ldCh_not_upper c (List.all_eq_true.mp hlw.2 c hcw)

theorem ldCh_not_sepSU (c : Char) (h : ldCh c = true) : isSepSU c = false := by
  simp [ldCh, isLowerCh, isDigitCh] at h
  simp [isSepSU, isSpaceCh]
  omega

theorem ldCh_not_sepSH (c : Char) (h : ldCh c = true) : isSepSH c = false := by
  simp [ldCh, isLowerCh, isDigitCh] at h
  simp [isSepSH, isSpaceCh]
  omega

theorem upper_not_sepSU (c : Char) (h : isUpperCh c = true) : isSepSU c = false := by
  simp [isUpperCh] at h
  simp [isSepSU, isSpaceCh]
  omega

theorem upper_not_sepSH (c : Char) (h : isUpperCh c = true) : isSepSH c = false := by
  simp [isUpperCh] at h
  simp [isSepSH, isSpaceCh]
  omega

theorem collapseRuns_nil (sep : Char → Bool) (rep : Char) (b : Bool) :
    collapseRuns sep rep [] b = [] := by
  cases b <;> rfl

theorem collapseRuns_append (sep : Char → Bool) (rep : Char) (w cs : List Char)
    (hw : ∀ c ∈ w, sep c = false) (b : Bool) :
    collapseRuns sep rep (w ++ cs) b = w ++ collapseRuns sep rep cs (if w.isEmpty then b else false) := by
  induction w generalizing b with
  | nil => simp
  | cons c t ih =>
    rw [List.cons_append, collapseRuns, if_neg (by simp [hw c (by simp)])]
    rw [ih (fun x hx => hw x (by simp [hx])) false]
    cases t <;> simp

theorem collapseRuns_joinSep (sep : Char → Bool) (rep d : Char) (ws : List (List Char))
    (hd : sep d = true)
    (hws : ∀ w ∈ ws, w ≠ [] ∧ ∀ c ∈ w, sep c = false) (b : Bool) :
    collapseRuns sep rep (joinSep d ws) b = joinSep rep ws := by
  induction ws generalizing b with
  | nil => rfl
  | cons w ws' ih =>
    obtain ⟨hne, hnosep⟩ := hws w (by simp)
    have hwne : w.isEmpty = false := by
      cases w with
      | nil => exact absurd rfl hne
      | cons a t => rfl
    by_cases hz : ws' = []
    · subst hz
      show collapseRuns sep rep (joinSep d [w]) b = joinSep rep [w]
      have hj : joinSep d [w] = w ++ ([] : List Char) := by simp [joinSep]
      rw [hj, collapseRuns_append sep rep w [] hnosep b, hwne]
      simp [joinSep, collapseRuns_nil]
    · rw [joinSep_cons d w ws' hz, collapseRuns_append sep rep w _ hnosep b, hwne]
      show w ++ collapseRuns sep rep (d :: joinSep d ws') false = _
      rw [collapseRuns, if_pos (by simp [hd]), if_neg (by simp)]
      rw [ih (fun x hx => hws x (by simp [hx])) true]
      rw [joinSep_cons rep w ws' hz]

theorem camelCollapse_append (w cs : List Char)
    (hw : ∀ c ∈ w, isDelimCh c = false) :
    camelCollapse (w ++ cs) false = w ++ camelCollapse cs false := by
  induction w with
  | nil => simp
  | cons c t ih =>
    rw [List.cons_append, camelCollapse, if_neg (by simp [hw c (by simp)]), if_neg (by simp)]
    rw [ih (fun x hx => hw x (by simp [hx]))]
    simp

theorem camelCollapse_true_word (h : Char) (t cs : List Char)
    (hh : isDelimCh h = false) (ht : ∀ c ∈ t, isDelimCh c = false) :
    camelCollapse ((h :: t) ++ cs) true = upCh h :: t ++ camelCollapse cs false := by
  rw [List.cons_append, camelCollapse, if_neg (by simp [hh]), if_pos (by simp)]
  rw [camelCollapse_append t cs ht]
  simp

theorem camelCollapse_nil (b : Bool) : camelCollapse [] b = [] := by
  cases b <;> rfl

theorem upper_not_delim (c : Char) (h : isUpperCh c = true) : isDelimCh c = false := by
  simp [isUpperCh] at h
  simp [isDelimCh, isSpaceCh]
  omega

theorem camelCollapse_joinSep_true (d : Char) (ws : List (List Char))
    (hd : isDelimCh d = true)
    (hws : ∀ w ∈ ws, w ≠ [] ∧ ∀ c ∈ w, isDelimCh c = false) :
    camelCollapse (joinSep d ws) true = camelTail ws := by
  induction ws with
  | nil => rfl
  | cons w ws' ih =>
    obtain ⟨hne, hnodelim⟩ := hws w (by simp)
    obtain ⟨h, t, rfl⟩ : ∃ h t, w = h :: t := by
      cases w with
      | nil => exact absurd rfl hne
      | cons h t => exact ⟨h, t, rfl⟩
    by_cases hz : ws' = []
    · subst hz
      rw [show joinSep d [h :: t] = (h :: t) ++ ([] : List Char) from by simp [joinSep]]
      rw [camelCollapse_true_word h t [] (hnodelim h (by simp))
        (fun c hc => hnodelim c (by simp [hc]))]
      simp [camelTail, capWord, upperFirst, camelCollapse_nil]
    · rw [joinSep_cons d _ ws' hz]
      rw [camelCollapse_true_word h t _ (hnodelim h (by simp))
        (fun c hc => hnodelim c (by simp [hc]))]
      rw [show camelCollapse (d :: joinSep d ws') false = camelCollapse (joinSep d ws') true from by
        rw [camelCollapse, if_pos (by simp [hd])]]
      rw [ih (fun x hx => hws x (by simp [hx]))]
      simp [camelTail, capWord, upperFirst]

theorem camelCollapse_joinSep_false (d : Char) (ws : List (List Char))
    (hd : isDelimCh d = true)
    (hws : ∀ w ∈ ws, w ≠ [] ∧ ∀ c ∈ w, isDelimCh c = false) :
    camelCollapse (joinSep d ws) false = camelForm ws := by
  induction ws with
  | nil => rfl
  | cons w ws' ih =>
    obtain ⟨hne, hnodelim⟩ := hws w (by simp)
    by_cases hz : ws' = []
    · subst hz
      show camelCollapse (joinSep d [w]) false = _
      rw [show joinSep d [w] = w ++ ([] : List Char) from by simp [joinSep]]
      rw [camelCollapse_append w [] hnodelim]
      simp [camelForm, camelTail, camelCollapse_nil]
    · rw [joinSep_cons d w ws' hz, camelCollapse_append w _ hnodelim]
      rw [show camelCollapse (d :: joinSep d ws') false = camelCollapse (joinSep d ws') true from by
        rw [camelCollapse, if_pos (by simp [hd])]]
      rw [camelCollapse_joinSep_true d ws' hd (fun x hx => hws x (by simp [hx]))]
      rfl

theorem lowerFirst_not_upper_head (l : List Char)
    (h : ∀ c, l.headD 'a' = c → isUpperCh c = false) : lowerFirst l = l := by
  cases l with
  | nil => rfl
  | cons c rest => rw [lowerFirst, if_neg (by simp [h c rfl])]

theorem lowerFirst_upCh (h : Char) (rest : List Char) (hl : isLowerCh h = true) :
    lowerFirst (upCh h :: rest) = h :: rest := by
  rw [lowerFirst, if_pos (by simp [isUpperCh_upCh_lower h hl]), lowCh_upCh h hl]

theorem map_joinSep (f : Char → Char) (d : Char) (ws : List (List Char)) :
    (joinSep d ws).map f = joinSep (f d) (ws.map (List.map f)) := by
  induction ws with
  | nil => rfl
  | cons w ws' ih =>
    by_cases hz : ws' = []
    · subst hz; simp [joinSep]
    · rw [joinSep_cons d w ws' hz, List.map_cons, joinSep_cons (f d) _ _ (by simp [hz])]
      simp [ih]

theorem map_lowCh_capWord (w : List Char) (hw : strongWord w = true) :
    (capWord w).map lowCh = w := by
  obtain ⟨c, t, rfl, h1, _, h3⟩ := strongWord_parts w hw
  simp only [capWord, upperFirst, List.map_cons]
  rw [lowCh_upCh c h1, map_lowCh_no_upper t (fun x hx => ldCh_not_upper x (h3 x hx))]

theorem map_lowCh_low (w : List Char) (hw : ∀ c ∈ w, ldCh c = true) :
    w.map lowCh = w :=
  map_lowCh_no_upper w (fun c hc => ldCh_not_upper c (hw c hc))

theorem lowWord_parts (w : List Char) (h : lowWord w = true) :
    w ≠ [] ∧ ∀ c ∈ w, ldCh c = true := by
  rw [lowWord, Bool.and_eq_true] at h
  constructor
  · intro hz; subst hz; simp at h
  · exact fun c hc => List.all_eq_true.mp h.2 c hc

theorem joinSep_all (P : Char → Bool) (d : Char) (ws : List (List Char))
    (hd : P d = false) (hws : ∀ w ∈ ws, ∀ c ∈ w, P c = false) :
    ∀ c ∈ joinSep d ws, P c = false := by
  intro c hc
  rcases mem_joinSep d ws c hc with rfl | ⟨w, hw, hcw⟩
  · exact hd
  · exact hws w hw c hcw

theorem delim_su_cases (d : Char) (h : isDelimCh d = true) :
    d = '-' ∨ isSepSU d = true := by
  by_cases h45 : d.toNat = 45
  · exact Or.inl (charEq_of_toNat (by rw [h45]; rfl))
  · refine Or.inr ?_
    simp [isDelimCh, isSpaceCh] at h
    simp [isSepSU, isSpaceCh]
    omega

theorem delim_sh_cases (d : Char) (h : isDelimCh d = true) :
    d = '_' ∨ isSepSH d = true := by
  by_cases h95 : d.toNat = 95
  · exact Or.inl (charEq_of_toNat (by rw [h95]; rfl))
  · refine Or.inr ?_
    simp [isDelimCh, isSpaceCh] at h
    simp [isSepSH, isSpaceCh]
    omega

theorem lowWords_cond_su (ws : List (List Char)) (hws : ∀ w ∈ ws, lowWord w = true) :
    ∀ w ∈ ws, w ≠ [] ∧ ∀ c ∈ w, isSepSU c = false := fun w hw =>
  ⟨(lowWord_parts w (hws w hw)).1,
    fun c hc => ldCh_not_sepSU c ((lowWord_parts w (hws w hw)).2 c hc)⟩

theorem lowWords_cond_sh (ws : List (List Char)) (hws : ∀ w ∈ ws, lowWord w = true) :
    ∀ w ∈ ws, w ≠ [] ∧ ∀ c ∈ w, isSepSH c = false := fun w hw =>
  ⟨(lowWord_parts w (hws w hw)).1,
    fun c hc => ldCh_not_sepSH c ((lowWord_parts w (hws w hw)).2 c hc)⟩

theorem map_lowCh_joinSep_low (d : Char) (ws : List (List Char))
    (hd : isUpperCh d = false) (hws : ∀ w ∈ ws, lowWord w = true) :
    (joinSep d ws).map lowCh = joinSep d ws :=
  map_lowCh_no_upper _ (joinSep_all isUpperCh d ws hd
    (fun w hw c hc => ldCh_not_upper c ((lowWord_parts w (hws w hw)).2 c hc)))

theorem toKebabL_joinSep (d : Char) (ws : List (List Char))
    (hd : isDelimCh d = true) (hws : ∀ w ∈ ws, lowWord w = true) :
    toKebabCaseL (joinSep d ws) = joinSep '-' ws := by
  unfold toKebabCaseL
  rw [insertBoundaries_joinSep_low '-' d ws hd hws]
  rcases delim_su_cases d hd with rfl | hsu
  · rw [collapseRuns_no_sep isSepSU '-' _ false (joinSep_all isSepSU '-' ws (by decide)
      (fun w hw c hc => ldCh_not_sepSU c ((lowWord_parts w (hws w hw)).2 c hc)))]
    exact map_lowCh_joinSep_low '-' ws (by decide) hws
  · rw [collapseRuns_joinSep isSepSU '-' d ws hsu (lowWords_cond_su ws hws) false]
    exact map_lowCh_joinSep_low '-' ws (by decide) hws

theorem toSnakeL_joinSep (d : Char) (ws : List (List Char))
    (hd : isDelimCh d = true) (hws : ∀ w ∈ ws, lowWord w = true) :
    toSnakeCaseL (joinSep d ws) = joinSep '_' ws := by
  unfold toSnakeCaseL
  rw [insertBoundaries_joinSep_low '_' d ws hd hws]
  rcases delim_sh_cases d hd with rfl | hsh
  · rw [collapseRuns_no_sep isSepSH '_' _ false (joinSep_all isSepSH '_' ws (by decide)
      (fun w hw c hc => ldCh_not_sepSH c ((lowWord_parts w (hws w hw)).2 c hc)))]
    exact map_lowCh_joinSep_low '_' ws (by decide) hws
  · rw [collapseRuns_joinSep isSepSH '_' d ws hsh (lowWords_cond_sh ws hws) false]
    exact map_lowCh_joinSep_low '_' ws (by decide) hws

theorem toCamelL_joinSep (d : Char) (ws : List (List Char))
    (hd : isDelimCh d = true) (hws : ∀ w ∈ ws, lowWord w = true) :
    toCamelCaseL (joinSep d ws) = camelForm ws := by
  unfold toCamelCaseL
  rw [camelCollapse_joinSep_false d ws hd (fun w hw =>
    ⟨(lowWord_parts w (hws w hw)).1,
      fun c hc => ldCh_not_delim c ((lowWord_parts w (hws w hw)).2 c hc)⟩)]
  cases ws with
  | nil => rfl
  | cons w ws' =>
    obtain ⟨hne, hld⟩ := lowWord_parts w (hws w (by simp))
    cases w with
    | nil => exact absurd rfl hne
    | cons a t =>
      apply lowerFirst_not_upper_head
      intro c hc
      have hh : (camelForm ((a :: t) :: ws')).headD 'a' = a := by simp [camelForm]
      rw [hh] at hc
      rw [← hc]
      exact ldCh_not_upper a (hld a (by simp))

theorem upperFirst_camelForm (ws : List (List Char))
    (hws : ∀ w ∈ ws, strongWord w = true) :
    upperFirst (camelForm ws) = camelTail ws := by
  cases ws with
  | nil => rfl
  | cons w ws' =>
    obtain ⟨c, t, rfl, h1, _, _⟩ := strongWord_parts w (hws w (by simp))
    simp [camelForm, camelTail, upperFirst, capWord]

theorem toPascalL_joinSep (d : Char) (ws : List (List Char))
    (hd : isDelimCh d = true) (hws : ∀ w ∈ ws, strongWord w = true) :
    toPascalCaseL (joinSep d ws) = camelTail ws := by
  rw [toPascalCaseL, toCamelL_joinSep d ws hd (fun w hw => lowWord_of_strong w (hws w hw))]
  exact upperFirst_camelForm ws hws

theorem toScreamingL_joinSep (d : Char) (ws : List (List Char))
    (hd : isDelimCh d = true) (hws : ∀ w ∈ ws, lowWord w = true) :
    toScreamingSnakeCaseL (joinSep d ws) = (joinSep '_' ws).map upCh := by
  rw [toScreamingSnakeCaseL, toSnakeL_joinSep d ws hd hws]

theorem strong_words_cond (ws : List (List Char)) (hws : ∀ w ∈ ws, strongWord w = true) :
    ∀ w ∈ ws, lowWord w = true := fun w hw => lowWord_of_strong w (hws w hw)

theorem camelForm_chars (ws : List (List Char)) (hws : ∀ w ∈ ws, strongWord w = true) :
    ∀ c ∈ camelForm ws, ldCh c = true ∨ isUpperCh c = true := by
  cases ws with
  | nil => simp [camelForm]
  | cons w ws' =>
    intro c hc
    rw [camelForm] at hc
    rcases List.mem_append.mp hc with h | h
    · exact Or.inl (strongWord_ld w (hws w (by simp)) c h)
    · rw [camelTail] at h
      obtain ⟨l, hl, hcl⟩ := List.mem_flatten.mp h
      obtain ⟨w', hw', rfl⟩ := List.mem_map.mp hl
      obtain ⟨a, t, rfl, h1, _, h3⟩ := strongWord_parts w' (hws w' (by simp [hw']))
      rw [capWord, upperFirst] at hcl
      rcases List.mem_cons.mp hcl with rfl | hct
      · exact Or.inr (isUpperCh_upCh_lower a h1)
      · exact Or.inl (h3 c hct)

theorem camelTail_chars (ws : List (List Char)) (hws : ∀ w ∈ ws, strongWord w = true) :
    ∀ c ∈ camelTail ws, ldCh c = true ∨ isUpperCh c = true := by
  intro c hc
  rw [camelTail] at hc
  obtain ⟨l, hl, hcl⟩ := List.mem_flatten.mp hc
  obtain ⟨w', hw', rfl⟩ := List.mem_map.mp hl
  obtain ⟨a, t, rfl, h1, _, h3⟩ := strongWord_parts w' (hws w' hw')
  rw [capWord, upperFirst] at hcl
  rcases List.mem_cons.mp hcl with rfl | hct
  · exact Or.inr (isUpperCh_upCh_lower a h1)
  · exact Or.inl (h3 c hct)

theorem capWord_chars (w : List Char) (hw : strongWord w = true) :
    ∀ c ∈ capWord w, ldCh c = true ∨ isUpperCh c = true := by
  obtain ⟨a, t, rfl, h1, _, h3⟩ := strongWord_parts w hw
  intro c hc
  rw [capWord, upperFirst] at hc
  rcases List.mem_cons.mp hc with rfl | hct
  · exact Or.inr (isUpperCh_upCh_lower a h1)
  · exact Or.inl (h3 c hct)

theorem blocks_chars (w : List Char) (ws' : List (List Char))
    (hw : strongWord w = true) (hws' : ∀ x ∈ ws', strongWord x = true) :
    ∀ b ∈ w :: ws'.map capWord, ∀ c ∈ b, ldCh c = true ∨ isUpperCh c = true := by
  intro b hb c hc
  rcases List.mem_cons.mp hb with rfl | hb2
  · exact Or.inl (strongWord_ld b hw c hc)
  · obtain ⟨w', hw', rfl⟩ := List.mem_map.mp hb2
    exact capWord_chars w' (hws' w' hw') c hc

theorem map_lowCh_blocks (w : List Char) (ws' : List (List Char))
    (hw : strongWord w = true) (hws' : ∀ x ∈ ws', strongWord x = true) :
    (w :: ws'.map capWord).map (List.map lowCh) = w :: ws' := by
  simp only [List.map_cons]
  rw [map_lowCh_low w (strongWord_ld w hw)]
  congr 1
  rw [List.map_map]
  have hcg : ∀ x ∈ ws', (List.map lowCh ∘ capWord) x = x := fun x hx =>
    map_lowCh_capWord x (hws' x hx)
  rw [List.map_congr_left hcg]
  simp

theorem toKebabL_camelForm (ws : List (List Char)) (hws : ∀ w ∈ ws, strongWord w = true) :
    toKebabCaseL (camelForm ws) = joinSep '-' ws := by
  cases ws with
  | nil => rfl
  | cons w ws' =>
    have hws' : ∀ x ∈ ws', strongWord x = true := fun x hx => hws x (by simp [hx])
    have hw : strongWord w = true := hws w (by simp)
    rw [toKebabCaseL, insertBoundaries_camelForm '-' _ hws]
    show ((collapseRuns isSepSU '-' (joinSep '-' (w :: ws'.map capWord)) false).map lowCh) = _
    rw [collapseRuns_no_sep isSepSU '-' _ false (joinSep_all isSepSU '-' _ (by decide)
      (fun b hb c hc => (blocks_chars w ws' hw hws' b hb c hc).elim
        (ldCh_not_sepSU c) (upper_not_sepSU c)))]
    rw [map_joinSep lowCh '-' _]
    rw [show lowCh '-' = '-' from by decide]
    rw [map_lowCh_blocks w ws' hw hws']

theorem toSnakeL_camelForm (ws : List (List Char)) (hws : ∀ w ∈ ws, strongWord w = true) :
    toSnakeCaseL (camelForm ws) = joinSep '_' ws := by
  cases ws with
  | nil => rfl
  | cons w ws' =>
    have hws' : ∀ x ∈ ws', strongWord x = true := fun x hx => hws x (by simp [hx])
    have hw : strongWord w = true := hws w (by simp)
    rw [toSnakeCaseL, insertBoundaries_camelForm '_' _ hws]
    show ((collapseRuns isSepSH '_' (joinSep '_' (w :: ws'.map capWord)) false).map lowCh) = _
    rw [collapseRuns_no_sep isSepSH '_' _ false (joinSep_all isSepSH '_' _ (by decide)
      (fun b hb c hc => (blocks_chars w ws' hw hws' b hb c hc).elim
        (ldCh_not_sepSH c) (upper_not_sepSH c)))]
    rw [map_joinSep lowCh '_' _]
    rw [show lowCh '_' = '_' from by decide]
    rw [map_lowCh_blocks w ws' hw hws']

theorem toKebabL_camelTail (ws : List (List Char)) (hws : ∀ w ∈ ws, strongWord w = true) :
    toKebabCaseL (camelTail ws) = joinSep '-' ws := by
  cases ws with
  | nil => rfl
  | cons w ws' =>
    have hws' : ∀ x ∈ ws', strongWord x = true := fun x hx => hws x (by simp [hx])
    have hw : strongWord w = true := hws w (by simp)
    rw [toKebabCaseL, insertBoundaries_camelTail '-' _ hws]
    rw [collapseRuns_no_sep isSepSU '-' _ false (joinSep_all isSepSU '-' _ (by decide)
      (fun b hb c hc => by
        obtain ⟨w', hw', rfl⟩ := List.mem_map.mp hb
        exact (capWord_chars w' (hws w' hw') c hc).elim (ldCh_not_sepSU c) (upper_not_sepSU c)))]
    rw [map_joinSep lowCh '-' _]
    rw [show lowCh '-' = '-' from by decide]
    congr 1
    rw [List.map_map]
    have hmc : List.map (List.map lowCh ∘ capWord) (w :: ws') =
        List.map (fun x => x) (w :: ws') :=
      List.map_congr_left (fun x hx => map_lowCh_capWord x (hws x hx))
    rw [hmc]
    simp

theorem toSnakeL_camelTail (ws : List (List Char)) (hws : ∀ w ∈ ws, strongWord w = true) :
    toSnakeCaseL (camelTail ws) = joinSep '_' ws := by
  cases ws with
  | nil => rfl
  | cons w ws' =>
    have hws' : ∀ x ∈ ws', strongWord x = true := fun x hx => hws x (by simp [hx])
    have hw : strongWord w = true := hws w (by simp)
    rw [toSnakeCaseL, insertBoundaries_camelTail '_' _ hws]
    rw [collapseRuns_no_sep isSepSH '_' _ false (joinSep_all isSepSH '_' _ (by decide)
      (fun b hb c hc => by
        obtain ⟨w', hw', rfl⟩ := List.mem_map.mp hb
        exact (capWord_chars w' (hws w' hw') c hc).elim (ldCh_not_sepSH c) (upper_not_sepSH c)))]
    rw [map_joinSep lowCh '_' _]
    rw [show lowCh '_' = '_' from by decide]
    congr 1
    rw [List.map_map]
    have hmc : List.map (List.map lowCh ∘ capWord) (w :: ws') =
        List.map (fun x => x) (w :: ws') :=
      List.map_congr_left (fun x hx => map_lowCh_capWord x (hws x hx))
    rw [hmc]
    simp

theorem toCamelL_camelForm (ws : List (List Char)) (hws : ∀ w ∈ ws, strongWord w = true) :
    toCamelCaseL (camelForm ws) = camelForm ws := by
  rw [toCamelCaseL]
  rw [camelCollapse_no_delim _ (fun c hc => (camelForm_chars ws hws c hc).elim
    (ldCh_not_delim c) (upper_not_delim c))]
  cases ws with
  | nil => rfl
  | cons w ws' =>
    obtain ⟨a, t, rfl, h1, _, _⟩ := strongWord_parts w (hws w (by simp))
    apply lowerFirst_not_upper_head
    intro c hc
    have hh : (camelForm ((a :: t) :: ws')).headD 'a' = a := by simp [camelForm]
    rw [hh] at hc
    rw [← hc]
    exact ldCh_not_upper a (Or.inl (by simp [ldCh, h1]) |>.elim (fun h => h) (fun h => h))

theorem toCamelL_camelTail (ws : List (List Char)) (hws : ∀ w ∈ ws, strongWord w = true) :
    toCamelCaseL (camelTail ws) = camelForm ws := by
  rw [toCamelCaseL]
  rw [camelCollapse_no_delim _ (fun c hc => (camelTail_chars ws hws c hc).elim
    (ldCh_not_delim c) (upper_not_delim c))]
  cases ws with
  | nil => rfl
  | cons w ws' =>
    obtain ⟨a, t, rfl, h1, _, _⟩ := strongWord_parts w (hws w (by simp))
    have hct : camelTail ((a :: t) :: ws') = upCh a :: (t ++ camelTail ws') := by
      simp [camelTail, capWord, upperFirst]
    rw [hct, lowerFirst_upCh a _ h1]
    simp [camelForm]

theorem toPascalL_camelForm (ws : List (List Char)) (hws : ∀ w ∈ ws, strongWord w = true) :
    toPascalCaseL (camelForm ws) = camelTail ws := by
  rw [toPascalCaseL, toCamelL_camelForm ws hws]
  exact upperFirst_camelForm ws hws

theorem toPascalL_camelTail (ws : List (List Char)) (hws : ∀ w ∈ ws, strongWord w = true) :
    toPascalCaseL (camelTail ws) = camelTail ws := by
  rw [toPascalCaseL, toCamelL_camelTail ws hws]
  exact upperFirst_camelForm ws hws

theorem specWordsAux_ld_append (w : List Char) (acc cs : List Char)
    (hw : ∀ c ∈ w, ldCh c = true) :
    specWordsAux acc (w ++ cs) = specWordsAux (w.reverse ++ acc) cs := by
  induction w generalizing acc with
  | nil => simp
  | cons c t ih =>
    have hld := hw c (by simp)
    rw [List.cons_append, specWordsAux, if_neg (by simp [ldCh_not_delim c hld]),
      if_neg (by simp [ldCh_not_upper c hld])]
    rw [ih _ (fun x hx => hw x (by simp [hx]))]
    simp

theorem specWordsAux_joinSep (d : Char) (ws : List (List Char))
    (hd : isDelimCh d = true) (hws : ∀ w ∈ ws, lowWord w = true) :
    specWordsAux [] (joinSep d ws) = ws := by
  induction ws with
  | nil => rfl
  | cons w ws' ih =>
    obtain ⟨hne, hld⟩ := lowWord_parts w (hws w (by simp))
    have hrevne : w.reverse.isEmpty = false := by
      cases hrw : w.reverse with
      | nil => exact absurd (by simpa using congrArg List.reverse hrw) hne
      | cons a t => rfl
    by_cases hz : ws' = []
    · subst hz
      rw [show joinSep d [w] = w ++ ([] : List Char) from by simp [joinSep]]
      rw [specWordsAux_ld_append w [] [] hld]
      rw [specWordsAux]
      simp [hrevne]
    · rw [joinSep_cons d w ws' hz]
      rw [specWordsAux_ld_append w [] _ hld]
      rw [show w.reverse ++ ([] : List Char) = w.reverse from by simp]
      rw [specWordsAux, if_pos (by simp [hd])]
      rw [if_neg (by simp [hrevne])]
      rw [ih (fun x hx => hws x (by simp [hx]))]
      simp

theorem specWords_joinSep (d : Char) (ws : List (List Char))
    (hd : isDelimCh d = true) (hws : ∀ w ∈ ws, lowWord w = true) :
    specWords (joinSep d ws) = ws := by
  rw [specWords, specWordsAux_joinSep d ws hd hws]
  have hmc : List.map (List.map lowCh) ws = List.map (fun x => x) ws :=
    List.map_congr_left (fun x hx => map_lowCh_low x (lowWord_parts x (hws x hx)).2)
  rw [hmc]
  simp

theorem upperFirst_camelForm_ne (ws : List (List Char))
    (hws : ∀ w ∈ ws, w ≠ []) :
    upperFirst (camelForm ws) = camelTail ws := by
  cases ws with
  | nil => rfl
  | cons w ws' =>
    cases w with
    | nil => exact absurd rfl (hws [] (by simp))
    | cons a t => simp [camelForm, camelTail, upperFirst, capWord]

theorem lowerFirst_camelTail_low (ws : List (List Char))
    (hws : ∀ w ∈ ws, lowWord w = true) :
    lowerFirst (camelTail ws) = camelForm ws := by
  cases ws with
  | nil => rfl
  | cons w ws' =>
    obtain ⟨hne, hld⟩ := lowWord_parts w (hws w (by simp))
    cases w with
    | nil => exact absurd rfl hne
    | cons a t =>
      have hct : camelTail ((a :: t) :: ws') = upCh a :: (t ++ camelTail ws') := by
        simp [camelTail, capWord, upperFirst]
      rw [hct]
      have hla := hld a (by simp)
      by_cases hl : isLowerCh a = true
      · rw [lowerFirst_upCh a _ hl]
        simp [camelForm]
      · have hup : upCh a = a := upCh_eq_self a (by simp at hl; simp [hl])
        rw [hup]
        rw [lowerFirst, if_neg (by simp [ldCh_not_upper a hla])]
        simp [camelForm]

theorem toPascalL_joinSep_low (d : Char) (ws : List (List Char))
    (hd : isDelimCh d = true) (hws : ∀ w ∈ ws, lowWord w = true) :
    toPascalCaseL (joinSep d ws) = camelTail ws := by
  rw [toPascalCaseL, toCamelL_joinSep d ws hd hws]
  exact upperFirst_camelForm_ne ws (fun w hw => (lowWord_parts w (hws w hw)).1)

theorem specPascalL_joinSep (d : Char) (ws : List (List Char))
    (hd : isDelimCh d = true) (hws : ∀ w ∈ ws, lowWord w = true) :
    specPascalL (joinSep d ws) = camelTail ws := by
  rw [specPascalL, specWords_joinSep d ws hd hws]
  rfl

theorem specCamelL_joinSep (d : Char) (ws : List (List Char))
    (hd : isDelimCh d = true) (hws : ∀ w ∈ ws, lowWord w = true) :
    specCamelL (joinSep d ws) = camelForm ws := by
  rw [specCamelL, specPascalL_joinSep d ws hd hws]
  exact lowerFirst_camelTail_low ws hws

theorem specSnakeL_joinSep (d : Char) (ws : List (List Char))
    (hd : isDelimCh d = true) (hws : ∀ w ∈ ws, lowWord w = true) :
    specSnakeL (joinSep d ws) = joinSep '_' ws := by
  rw [specSnakeL, specWords_joinSep d ws hd hws]

theorem specKebabL_joinSep (d : Char) (ws : List (List Char))
    (hd : isDelimCh d = true) (hws : ∀ w ∈ ws, lowWord w = true) :
    specKebabL (joinSep d ws) = joinSep '-' ws := by
  rw [specKebabL, specWords_joinSep d ws hd hws]

theorem fourDerived (ws : List (List Char)) (hws : ∀ w ∈ ws, strongWord w = true)
    (l : List Char)
    (hl : l = joinSep '-' ws ∨ l = camelForm ws ∨ l = camelTail ws ∨ l = joinSep '_' ws) :
    toKebabCaseL l = joinSep '-' ws ∧ toCamelCaseL l = camelForm ws ∧
      toPascalCaseL l = camelTail ws ∧ toSnakeCaseL l = joinSep '_' ws := by
  have hlow := strong_words_cond ws hws
  have hd1 : isDelimCh '-' = true := by decide
  have hd2 : isDelimCh '_' = true := by decide
  rcases hl with rfl | rfl | rfl | rfl
  · exact ⟨toKebabL_joinSep '-' ws hd1 hlow, toCamelL_joinSep '-' ws hd1 hlow,
      toPascalL_joinSep_low '-' ws hd1 hlow, toSnakeL_joinSep '-' ws hd1 hlow⟩
  · exact ⟨toKebabL_camelForm ws hws, toCamelL_camelForm ws hws,
      toPascalL_camelForm ws hws, toSnakeL_camelForm ws hws⟩
  · exact ⟨toKebabL_camelTail ws hws, toCamelL_camelTail ws hws,
      toPascalL_camelTail ws hws, toSnakeL_camelTail ws hws⟩
  · exact ⟨toKebabL_joinSep '_' ws hd2 hlow, toCamelL_joinSep '_' ws hd2 hlow,
      toPascalL_joinSep_low '_' ws hd2 hlow, toSnakeL_joinSep '_' ws hd2 hlow⟩

theorem sameDerived_of_canon (ws : List (List Char))
    (hws : ∀ w ∈ ws, strongWord w = true) (t : String)
    (ht : t.data = joinSep '-' ws ∨ t.data = camelForm ws ∨
      t.data = camelTail ws ∨ t.data = joinSep '_' ws) :
    sameDerived (generateNameVariations t)
      (generateNameVariations (String.mk (joinSep '-' ws))) := by
  obtain ⟨k, c, p, sn⟩ := fourDerived ws hws t.data ht
  obtain ⟨k0, c0, p0, sn0⟩ := fourDerived ws hws (joinSep '-' ws) (Or.inl rfl)
  refine ⟨?_, ?_, ?_, ?_, ?_⟩
  · exact congrArg String.mk (k.trans k0.symm)
  · exact congrArg String.mk (c.trans c0.symm)
  · exact congrArg String.mk (p.trans p0.symm)
  · exact congrArg String.mk (sn.trans sn0.symm)
  · exact congrArg String.mk (congrArg (List.map upCh) (sn.trans sn0.symm))

/-- Claim C1, counterexample: the round-trip invariant fails as stated. For the
input "object-storage" the engine derives screamingSnake "OBJECT_STORAGE", and
feeding that casing back into the engine yields camel "oBJECTSTORAGE" instead
of the original "objectStorage", so the derived set is not reproduced. -/
theorem C1_roundtrip_counterexample :
    (generateNameVariations "object-storage").screamingSnake = "OBJECT_STORAGE" ∧
    (generateNameVariations "OBJECT_STORAGE").camel = "oBJECTSTORAGE" ∧
    (generateNameVariations "object-storage").camel = "objectStorage" ∧
    ¬ sameDerived
        (generateNameVariations (generateNameVariations "object-storage").screamingSnake)
        (generateNameVariations "object-storage") := by
  refine ⟨by decide, by decide, by decide, by decide⟩

/-- Claim C1, amended: for inputs that are hyphen-joined sequences of words,
each word a lowercase letter followed by at least one more lowercase letter or
digit, re-deriving NameVariations from the derived kebab, camel, pascal, or
snake casing reproduces the same kebab/camel/pascal/snake/screamingSnake set;
feeding the screamingSnake casing back does not reproduce the set in general
(see the counterexample). -/
theorem C1_roundtrip_amended (ws : List (List Char))
    (hws : ∀ w ∈ ws, strongWord w = true) :
    sameDerived
      (generateNameVariations (generateNameVariations (String.mk (joinSep '-' ws))).kebab)
      (generateNameVariations (String.mk (joinSep '-' ws))) ∧
    sameDerived
      (generateNameVariations (generateNameVariations (String.mk (joinSep '-' ws))).camel)
      (generateNameVariations (String.mk (joinSep '-' ws))) ∧
    sameDerived
      (generateNameVariations (generateNameVariations (String.mk (joinSep '-' ws))).pascal)
      (generateNameVariations (String.mk (joinSep '-' ws))) ∧
    sameDerived
      (generateNameVariations (generateNameVariations (String.mk (joinSep '-' ws))).snake)
      (generateNameVariations (String.mk (joinSep '-' ws))) := by
  have hlow := strong_words_cond ws hws
  have hd1 : isDelimCh '-' = true := by decide
  have hd2 : isDelimCh '_' = true := by decide
  refine ⟨?_, ?_, ?_, ?_⟩
  · exact sameDerived_of_canon ws hws _ (Or.inl (toKebabL_joinSep '-' ws hd1 hlow))
  · exact sameDerived_of_canon ws hws _ (Or.inr (Or.inl (toCamelL_joinSep '-' ws hd1 hlow)))
  · exact sameDerived_of_canon ws hws _
      (Or.inr (Or.inr (Or.inl (toPascalL_joinSep_low '-' ws hd1 hlow))))
  · exact sameDerived_of_canon ws hws _
      (Or.inr (Or.inr (Or.inr (toSnakeL_joinSep '-' ws hd1 hlow))))

/-- Witness for C1_roundtrip_amended at the concrete word list
[[o,b,j], [st,o,r]]-style input "ab-c3". -/
theorem C1_roundtrip_amended_witness :
    (∀ w ∈ [['a','b'], ['c','3']], strongWord w = true) ∧
    sameDerived
      (generateNameVariations
        (generateNameVariations (String.mk (joinSep '-' [['a','b'], ['c','3']]))).camel)
      (generateNameVariations (String.mk (joinSep '-' [['a','b'], ['c','3']]))) :=
  ⟨by decide, (C1_roundtrip_amended [['a','b'], ['c','3']] (by decide)).2.1⟩

/-- Claim C5, counterexample: the engine does not implement the spec's
normalize-to-words reference algorithm. On "OBJECT_STORAGE" the reference
derives camel "objectStorage" while the code keeps the interior capitals and
yields "oBJECTSTORAGE"; on "a--b" the reference collapses the hyphen run to
kebab "a-b" while the code leaves "a--b". -/
theorem C5_reference_counterexample :
    toCamelCase "OBJECT_STORAGE" = "oBJECTSTORAGE" ∧
    specCamel "OBJECT_STORAGE" = "objectStorage" ∧
    toCamelCase "OBJECT_STORAGE" ≠ specCamel "OBJECT_STORAGE" ∧
    toKebabCase "a--b" = "a--b" ∧
    specKebab "a--b" = "a-b" ∧
    toKebabCase "a--b" ≠ specKebab "a--b" := by
  refine ⟨by decide, by decide, by decide, by decide, by decide, by decide⟩

/-- Claim C5, amended: the code agrees with the spec's reference definition on
inputs made of nonempty lowercase-letter/digit words joined by single
delimiter characters (hyphen, underscore, or whitespace), and the empty
string maps to the empty string in every casing; in general the code differs
from the reference (camel/pascal preserve interior capitals instead of
re-deriving them from the word sequence, kebab does not collapse existing
hyphen runs, and snake does not collapse existing underscore runs). -/
theorem C5_reference_amended :
    (∀ (d : Char) (ws : List (List Char)), isDelimCh d = true →
      (∀ w ∈ ws, lowWord w = true) →
      toKebabCase (String.mk (joinSep d ws)) = specKebab (String.mk (joinSep d ws)) ∧
      toCamelCase (String.mk (joinSep d ws)) = specCamel (String.mk (joinSep d ws)) ∧
      toPascalCase (String.mk (joinSep d ws)) = specPascal (String.mk (joinSep d ws)) ∧
      toSnakeCase (String.mk (joinSep d ws)) = specSnake (String.mk (joinSep d ws)) ∧
      toScreamingSnakeCase (String.mk (joinSep d ws)) =
        specScreamingSnake (String.mk (joinSep d ws))) ∧
    (toKebabCase "" = "" ∧ toCamelCase "" = "" ∧ toPascalCase "" = "" ∧
      toSnakeCase "" = "" ∧ toScreamingSnakeCase "" = "") := by
  constructor
  · intro d ws hd hws
    refine ⟨?_, ?_, ?_, ?_, ?_⟩
    · exact congrArg String.mk
        ((toKebabL_joinSep d ws hd hws).trans (specKebabL_joinSep d ws hd hws).symm)
    · exact congrArg String.mk
        ((toCamelL_joinSep d ws hd hws).trans (specCamelL_joinSep d ws hd hws).symm)
    · exact congrArg String.mk
        ((toPascalL_joinSep_low d ws hd hws).trans (specPascalL_joinSep d ws hd hws).symm)
    · exact congrArg String.mk
        ((toSnakeL_joinSep d ws hd hws).trans (specSnakeL_joinSep d ws hd hws).symm)
    · exact congrArg String.mk (congrArg (List.map upCh)
        ((toSnakeL_joinSep d ws hd hws).trans (specSnakeL_joinSep d ws hd hws).symm))
  · exact ⟨rfl, rfl, rfl, rfl, rfl⟩

/-- Witness for C5_reference_amended at delimiter space and words "s3", "x". -/
theorem C5_reference_amended_witness :
    isDelimCh ' ' = true ∧ (∀ w ∈ [['s','3'], ['x']], lowWord w = true) ∧
    toCamelCase (String.mk (joinSep ' ' [['s','3'], ['x']])) =
      specCamel (String.mk (joinSep ' ' [['s','3'], ['x']])) :=
  ⟨by decide, by decide,
    ((C5_reference_amended).1 ' ' [['s','3'], ['x']] (by decide) (by decide)).2.1⟩

theorem mem_collapseRuns (sep : Char → Bool) (rep : Char) (l : List Char) (b : Bool)
    (c : Char) (hc : c ∈ collapseRuns sep rep l b) :
    c = rep ∨ (c ∈ l ∧ sep c = false) := by
  induction l generalizing b with
  | nil => simp [collapseRuns_nil] at hc
  | cons x rest ih =>
    rw [collapseRuns] at hc
    by_cases hx : sep x = true
    · rw [if_pos (by simp [hx])] at hc
      by_cases hb : b = true
      · rw [if_pos hb] at hc
        rcases ih true hc with h | ⟨h1, h2⟩
        · exact Or.inl h
        · exact Or.inr ⟨by simp [h1], h2⟩
      · rw [if_neg hb] at hc
        rcases List.mem_cons.mp hc with rfl | hc2
        · exact Or.inl rfl
        · rcases ih true hc2 with h | ⟨h1, h2⟩
          · exact Or.inl h
          · exact Or.inr ⟨by simp [h1], h2⟩
    · rw [if_neg (by simp at hx; simp [hx])] at hc
      rcases List.mem_cons.mp hc with rfl | hc2
      · exact Or.inr ⟨by simp, by simp at hx; exact hx⟩
      · rcases ih false hc2 with h | ⟨h1, h2⟩
        · exact Or.inl h
        · exact Or.inr ⟨by simp [h1], h2⟩

theorem lowCh_preimage (c x : Char) (hx : lowCh x = c) (_hc : isUpperCh c = false)
    (hcl : isLowerCh c = false) : x = c := by
  by_cases hu : isUpperCh x = true
  · exfalso
    have := toNat_lowCh_upper x hu
    rw [hx] at this
    simp [isUpperCh] at hu
    simp [isLowerCh] at hcl
    omega
  · rw [lowCh_eq_self x (by simp at hu; exact hu)] at hx
    exact hx

theorem isLowerCh_upCh (c : Char) : isLowerCh (upCh c) = false := by
  by_cases h : isLowerCh c = true
  · have := toNat_upCh_lower c h
    simp [isLowerCh] at h ⊢
    omega
  · simp at h
    rw [upCh_eq_self c h]
    exact h

theorem lowerFirst_head_not_upper (l : List Char) (c : Char) (rest : List Char)
    (h : lowerFirst l = c :: rest) : isUpperCh c = false := by
  cases l with
  | nil => simp [lowerFirst] at h
  | cons x t =>
    rw [lowerFirst] at h
    by_cases hx : isUpperCh x = true
    · rw [if_pos (by simp [hx])] at h
      have : lowCh x = c := (List.cons.injEq _ _ _ _ ▸ h).1
      rw [← this]
      exact isUpperCh_lowCh x
    · rw [if_neg (by simp [hx])] at h
      have : x = c := (List.cons.injEq _ _ _ _ ▸ h).1
      rw [← this]
      simp at hx
      exact hx

/-- Claim C9, counterexample: the casing character properties fail as stated
for non-letter inputs. For the non-empty input "1" both pascal and camel are
"1": the first character of pascal is not an uppercase letter and the first
character of camel is not a lowercase letter. -/
theorem C9_casing_counterexample :
    ("1" : String) ≠ "" ∧ toPascalCase "1" = "1" ∧ toCamelCase "1" = "1" ∧
    isUpperCh '1' = false ∧ isLowerCh '1' = false := by
  refine ⟨by decide, by decide, by decide, by decide, by decide⟩

/-- Claim C9, amended: for every input string, kebab contains no underscore,
snake contains no hyphen, and screamingSnake contains no (ASCII) lowercase
letter; and whenever camel is nonempty and its first character is an ASCII
letter, that character is lowercase and pascal is camel with that first
character uppercased, so pascal starts with an uppercase letter. (For inputs
whose camel form starts with a non-letter, e.g. a digit, the first-character
properties fail; see the counterexample.) -/
theorem C9_casing_amended (s : String) :
    ('_' ∉ (toKebabCase s).data) ∧
    ('-' ∉ (toSnakeCase s).data) ∧
    (∀ c ∈ (toScreamingSnakeCase s).data, isLowerCh c = false) ∧
    (∀ c rest, (toCamelCase s).data = c :: rest →
      (isLowerCh c || isUpperCh c) = true →
      isLowerCh c = true ∧
      (toPascalCase s).data = upCh c :: rest ∧ isUpperCh (upCh c) = true) := by
  refine ⟨?_, ?_, ?_, ?_⟩
  · intro hmem
    obtain ⟨x, hx, hlx⟩ := List.mem_map.mp hmem
    have hxe : x = '_' := lowCh_preimage '_' x hlx (by decide) (by decide)
    subst hxe
    rcases mem_collapseRuns isSepSU '-' _ false '_' hx with h | ⟨_, h2⟩
    · exact absurd h (by decide)
    · exact absurd h2 (by decide)
  · intro hmem
    obtain ⟨x, hx, hlx⟩ := List.mem_map.mp hmem
    have hxe : x = '-' := lowCh_preimage '-' x hlx (by decide) (by decide)
    subst hxe
    rcases mem_collapseRuns isSepSH '_' _ false '-' hx with h | ⟨_, h2⟩
    · exact absurd h (by decide)
    · exact absurd h2 (by decide)
  · intro c hc
    obtain ⟨x, _, hux⟩ := List.mem_map.mp hc
    rw [← hux]
    exact isLowerCh_upCh x
  · intro c rest hdata hletter
    have hnu : isUpperCh c = false := lowerFirst_head_not_upper _ c rest hdata
    have hl : isLowerCh c = true := by
      rcases Bool.or_eq_true_iff.mp hletter with h | h
      · exact h
      · rw [hnu] at h; cases h
    refine ⟨hl, ?_, isUpperCh_upCh_lower c hl⟩
    show (upperFirst (toCamelCaseL s.data)) = upCh c :: rest
    have : toCamelCaseL s.data = c :: rest := hdata
    rw [this, upperFirst]

/-- Witness for C9_casing_amended at the input "a-b". -/
theorem C9_casing_amended_witness :
    '_' ∉ (toKebabCase "a_b").data ∧
    (isLowerCh 'a' = true ∧ (toPascalCase "a-b").data = upCh 'a' :: ['B'] ∧
      isUpperCh (upCh 'a') = true) :=
  ⟨(C9_casing_amended "a_b").1,
    (C9_casing_amended "a-b").2.2.2 'a' ['B'] (by decide) (by decide)⟩

/-! Filesystem and file-writer model (src/cli/utils/file-writer.ts). The
filesystem is an association list from paths to file contents; directory
creation has no further observable effect in this model, and host IO errors
(the catch branch) are outside the pure model. -/

/-- Claim C4: write with an existing target, force=false, dryRun=false fails
with the Conflict result (success=false, written=false, existed=true, the
conflict message) and leaves the filesystem unchanged; and a failing result
arises exactly under that condition (host IO errors are outside the pure
model). -/
theorem C4_conflict_atomicity (fs : FS) (p c : String) (force dryRun : Bool) :
    ((writeFile fs p c ⟨force, dryRun⟩).1.success = false ↔
      existsFile fs p = true ∧ force = false ∧ dryRun = false) ∧
    ((writeFile fs p c ⟨force, dryRun⟩).1.success = false →
      (writeFile fs p c ⟨force, dryRun⟩).1.existed = true ∧
      (writeFile fs p c ⟨force, dryRun⟩).1.written = false ∧
      (writeFile fs p c ⟨force, dryRun⟩).1.message = some conflictMsg ∧
      (writeFile fs p c ⟨force, dryRun⟩).2 = fs) := by
  unfold writeFile
  by_cases he : existsFile fs p = true <;>
    cases force <;> cases dryRun <;> simp [he]

/-- Witness for C4_conflict_atomicity: a second write of "a.ts" without force
conflicts and leaves the file intact. -/
theorem C4_conflict_atomicity_witness :
    (writeFile [("a.ts", "x")] "a.ts" "y" ⟨false, false⟩).1.success = false ∧
    (writeFile [("a.ts", "x")] "a.ts" "y" ⟨false, false⟩).2 = [("a.ts", "x")] := by
  have h := C4_conflict_atomicity [("a.ts", "x")] "a.ts" "y" false false
  have hs : (writeFile [("a.ts", "x")] "a.ts" "y" ⟨false, false⟩).1.success = false :=
    h.1.mpr ⟨by decide, rfl, rfl⟩
  exact ⟨hs, (h.2 hs).2.2.2⟩

/-! Style post-processor model (applyStyleConfig in base.generator.ts).
The two quote-normalization regex replaces are embedded with JS backtracking
semantics specialized to their patterns; the semicolon passes act per line
(multiline ^/$ anchored at newline boundaries); the indent pass expands every
tab to the configured number of spaces. -/

theorem splitNl_ne_nil (cs : List Char) : splitNl cs ≠ [] := by
  induction cs with
  | nil => simp [splitNl]
  | cons c rest ih =>
    rw [splitNl]
    by_cases hc : c = '\n'
    · simp [hc]
    · rw [if_neg hc]
      cases hs : splitNl rest with
      | nil => simp
      | cons s ss => simp

theorem splitNl_no_newline (cs : List Char) : ∀ l ∈ splitNl cs, '\n' ∉ l := by
  induction cs with
  | nil => simp [splitNl]
  | cons c rest ih =>
    intro l hl
    rw [splitNl] at hl
    by_cases hc : c = '\n'
    · rw [if_pos hc] at hl
      rcases List.mem_cons.mp hl with rfl | h
      · simp
      · exact ih l h
    · rw [if_neg hc] at hl
      cases hs : splitNl rest with
      | nil => exact absurd hs (splitNl_ne_nil rest)
      | cons s ss =>
        rw [hs] at hl
        rcases List.mem_cons.mp hl with rfl | h
        · intro hmem
          rcases List.mem_cons.mp hmem with h1 | h2
          · exact hc h1.symm
          · exact ih s (by rw [hs]; simp) h2
        · exact ih l (by rw [hs]; simp [h])

theorem splitNl_single (l : List Char) (hl : '\n' ∉ l) : splitNl l = [l] := by
  induction l with
  | nil => rfl
  | cons c rest ih =>
    rw [splitNl, if_neg (by intro h; exact hl (by simp [h]))]
    rw [ih (fun h => hl (by simp [h]))]

theorem splitNl_append (l rest : List Char) (hl : '\n' ∉ l) :
    splitNl (l ++ '\n' :: rest) = l :: splitNl rest := by
  induction l with
  | nil => simp [splitNl]
  | cons c t ih =>
    rw [List.cons_append, splitNl, if_neg (by intro h; exact hl (by simp [h]))]
    rw [ih (fun h => hl (by simp [h]))]

theorem splitNl_joinSep (ls : List (List Char)) (hne : ls ≠ [])
    (hnl : ∀ l ∈ ls, '\n' ∉ l) : splitNl (joinSep '\n' ls) = ls := by
  induction ls with
  | nil => exact absurd rfl hne
  | cons l ls' ih =>
    by_cases hz : ls' = []
    · subst hz
      exact splitNl_single l (hnl l (by simp))
    · rw [joinSep_cons '\n' l ls' hz, splitNl_append l _ (hnl l (by simp))]
      rw [ih hz (fun x hx => hnl x (by simp [hx]))]

theorem mapLines_idem (g : List Char → List Char)
    (hidem : ∀ l, g (g l) = g l)
    (hnl : ∀ l, '\n' ∉ l → '\n' ∉ g l) (cs : List Char) :
    mapLines g (mapLines g cs) = mapLines g cs := by
  rw [mapLines, mapLines]
  rw [splitNl_joinSep ((splitNl cs).map g)
    (by
      intro h
      have := splitNl_ne_nil cs
      cases hs : splitNl cs with
      | nil => exact this hs
      | cons s ss => rw [hs] at h; simp at h)
    (by
      intro l hl
      obtain ⟨x, hx, rfl⟩ := List.mem_map.mp hl
      exact hnl x (splitNl_no_newline cs x hx))]
  rw [List.map_map]
  congr 1
  exact List.map_congr_left (fun x _ => hidem x)

theorem trailingWs_all (l : List Char) : (trailingWs l).all isSpaceCh = true := by
  rw [trailingWs, List.all_eq_true]
  intro c hc
  rw [List.mem_reverse] at hc
  exact List.mem_takeWhile_imp hc

theorem dropTrailingWs_append_all (xs ys : List Char) (hys : ys.all isSpaceCh = true) :
    dropTrailingWs (xs ++ ys) = dropTrailingWs xs := by
  rw [dropTrailingWs, dropTrailingWs, List.reverse_append]
  rw [List.dropWhile_append_of_pos (by
    intro a ha
    rw [List.mem_reverse] at ha
    exact List.all_eq_true.mp hys a ha)]

theorem dropTrailingWs_concat_nonws (xs : List Char) (c : Char)
    (hc : isSpaceCh c = false) : dropTrailingWs (xs ++ [c]) = xs ++ [c] := by
  rw [dropTrailingWs, List.reverse_append]
  show ((List.dropWhile isSpaceCh ([c] ++ xs.reverse)).reverse) = _
  rw [show ([c] ++ xs.reverse : List Char) = c :: xs.reverse from rfl]
  rw [List.dropWhile_cons_of_neg (by simp [hc])]
  simp

theorem endsWithCh_concat (xs : List Char) (c : Char) :
    endsWithCh (xs ++ [c]) c = true := by
  rw [endsWithCh, List.getLast?_concat]
  simp

theorem endsWithCh_trimWs_concat (xs : List Char) (c : Char)
    (hc : isSpaceCh c = false) : endsWithCh (trimWs (xs ++ [c])) c = true := by
  rw [trimWs, List.dropWhile_append]
  by_cases he : (xs.dropWhile isSpaceCh).isEmpty = true
  · rw [if_pos he, List.dropWhile_cons_of_neg (by simp [hc])]
    have h1 : dropTrailingWs [c] = [c] := by
      have := dropTrailingWs_concat_nonws [] c hc
      simpa using this
    rw [h1]
    have := endsWithCh_concat [] c
    simpa using this
  · rw [if_neg he]
    rw [dropTrailingWs_concat_nonws _ c hc]
    exact endsWithCh_concat _ c

theorem dtw_append_tws (l : List Char) : dropTrailingWs l ++ trailingWs l = l := by
  rw [dropTrailingWs, trailingWs, ← List.reverse_append, List.takeWhile_append_dropWhile,
    List.reverse_reverse]

theorem isExportLine_parts (l : List Char) (h : isExportLine l = true) :
    ∃ c d r, l = exportKw ++ c :: d :: r ∧ isSpaceCh c = true := by
  rw [isExportLine, Bool.and_eq_true] at h
  obtain ⟨h1, h2⟩ := h
  cases hd : l.drop 6 with
  | nil => rw [hd] at h2; cases h2
  | cons c rest =>
    cases rest with
    | nil => rw [hd] at h2; cases h2
    | cons d r =>
      rw [hd] at h2
      refine ⟨c, d, r, ?_, h2⟩
      conv_lhs => rw [← List.take_append_drop 6 l]
      rw [hd, decide_eq_true_eq.mp h1]

theorem isExportLine_shape (c : Char) (d : Char) (r : List Char)
    (hc : isSpaceCh c = true) : isExportLine (exportKw ++ c :: d :: r) = true := by
  rw [isExportLine]
  rw [List.take_left' (by rfl), List.drop_left' (by rfl)]
  simp [hc]

theorem export_drop6 (c d : Char) (r : List Char) :
    (exportKw ++ c :: d :: r).drop 6 = c :: d :: r :=
  List.drop_left' (by rfl)

theorem all_ws_false_of_mem_semicolon (x : List Char) (hx : ';' ∈ x) :
    x.all isSpaceCh = false := by
  cases hall : x.all isSpaceCh with
  | false => rfl
  | true => exact absurd (List.all_eq_true.mp hall ';' hx) (by decide)

theorem semiAddLine_fix (x : List Char) (hx : isExportLine x = true)
    (hskip : semiSkip (trimWs (semiG1 x)) = true) : semiAddLine x = x := by
  rw [semiAddLine, if_pos hx, if_pos hskip]

theorem semiSkip_of_endsWith (t : List Char) (h : endsWithCh t ';' = true) :
    semiSkip t = true := by
  rw [semiSkip, h]
  simp

theorem dropTrailingWs_shape (c d : Char) (r : List Char) (hc : isSpaceCh c = true)
    (hB : ((c :: d :: r).all isSpaceCh) = false) :
    ∃ r2, dropTrailingWs (exportKw ++ c :: d :: r) = exportKw ++ c :: d :: r2 := by
  set l := exportKw ++ c :: d :: r with hldef
  set g1 := dropTrailingWs l with hg1
  set g2 := trailingWs l with hg2
  have hD1 : g1 ++ g2 = l := dtw_append_tws l
  have hg2w : g2.all isSpaceCh = true := trailingWs_all l
  have hK : 8 ≤ g1.length := by
    by_contra h7
    push_neg at h7
    have harith : g1.length + (7 - g1.length) = 7 := by omega
    have hdrop7 : l.drop 7 = g2.drop (7 - g1.length) := by
      have hda := @List.drop_append _ g1 g2 (7 - g1.length)
      rw [harith, hD1] at hda
      exact hda
    have hdr : l.drop 7 = d :: r := by
      have h6 : l.drop 6 = c :: d :: r := List.drop_left' (by rfl)
      have h67 : l.drop 7 = (l.drop 6).drop 1 := by rw [List.drop_drop]
      rw [h67, h6]
      rfl
    have hdr_ws : (d :: r).all isSpaceCh = true := by
      rw [← hdr, hdrop7, List.all_eq_true]
      intro x hxm
      exact List.all_eq_true.mp hg2w x (List.drop_subset _ _ hxm)
    rw [List.all_cons, hc, hdr_ws] at hB
    simp at hB
  have hgtake : g1 = l.take g1.length := by
    conv_rhs => rw [← hD1]
    exact (List.take_left g1 g2).symm
  have harith2 : exportKw.length + (g1.length - 6) = g1.length := by
    have : exportKw.length = 6 := rfl
    omega
  have hshape : g1 = exportKw ++ (c :: d :: r).take (g1.length - 6) := by
    have h := @List.take_append _ exportKw (c :: d :: r) (g1.length - 6)
    rw [harith2] at h
    rw [← hldef] at h
    exact hgtake.trans h
  obtain ⟨m, hm⟩ : ∃ m, g1.length - 6 = m + 2 := ⟨g1.length - 8, by omega⟩
  refine ⟨r.take m, ?_⟩
  rw [hshape, hm]
  simp [List.take_succ_cons]

theorem semiAddLine_idem (l : List Char) :
    semiAddLine (semiAddLine l) = semiAddLine l := by
  by_cases he : isExportLine l = true
  · by_cases hskip : semiSkip (trimWs (semiG1 l)) = true
    · have hfix : semiAddLine l = l := semiAddLine_fix l he hskip
      rw [hfix]
      exact hfix
    · have happ : semiAddLine l = semiG1 l ++ ';' :: semiG2 l := by
        rw [semiAddLine, if_pos he, if_neg (by simp [hskip])]
      rw [happ]
      obtain ⟨c, d, r, hl, hc⟩ := isExportLine_parts l he
      by_cases hB : ((l.drop 6).all isSpaceCh) = true
      · have hg1 : semiG1 l = l := by rw [semiG1, if_pos hB]
        have hg2 : semiG2 l = [] := by rw [semiG2, if_pos hB]
        rw [hg1, hg2]
        have hshape : l ++ ';' :: [] = exportKw ++ c :: d :: (r ++ [';']) := by
          rw [hl]; simp
        rw [hshape]
        apply semiAddLine_fix
        · exact isExportLine_shape c d (r ++ [';']) hc
        · have hmem : ';' ∈ (exportKw ++ c :: d :: (r ++ [';'])).drop 6 := by
            rw [export_drop6]; simp
          have hall := all_ws_false_of_mem_semicolon _ hmem
          have hsg1 : semiG1 (exportKw ++ c :: d :: (r ++ [';'])) =
              dropTrailingWs (exportKw ++ c :: d :: (r ++ [';'])) := by
            rw [semiG1, if_neg (by simp [hall])]
          have hsg1' : dropTrailingWs (exportKw ++ c :: d :: (r ++ [';'])) =
              exportKw ++ c :: d :: (r ++ [';']) := by
            have h1 := dropTrailingWs_concat_nonws (exportKw ++ c :: d :: r) ';' (by decide)
            simpa using h1
          rw [hsg1, hsg1']
          apply semiSkip_of_endsWith
          have h2 := endsWithCh_trimWs_concat (exportKw ++ c :: d :: r) ';' (by decide)
          simpa using h2
      · simp only [Bool.not_eq_true] at hB
        have hg1 : semiG1 l = dropTrailingWs l := by rw [semiG1, if_neg (by simp [hB])]
        have hg2 : semiG2 l = trailingWs l := by rw [semiG2, if_neg (by simp [hB])]
        have hBl : ((c :: d :: r).all isSpaceCh) = false := by
          rw [hl, export_drop6] at hB
          exact hB
        obtain ⟨r2, hr2⟩ := dropTrailingWs_shape c d r hc hBl
        rw [hg1, hg2, hl, hr2]
        have hsh : (exportKw ++ c :: d :: r2) ++ ';' :: trailingWs (exportKw ++ c :: d :: r) =
            exportKw ++ c :: d :: (r2 ++ ';' :: trailingWs (exportKw ++ c :: d :: r)) := by
          simp
        rw [hsh]
        apply semiAddLine_fix
        · exact isExportLine_shape c d _ hc
        · have hmem : ';' ∈
              (exportKw ++ c :: d :: (r2 ++ ';' :: trailingWs (exportKw ++ c :: d :: r))).drop 6 := by
            rw [export_drop6]; simp
          have hall := all_ws_false_of_mem_semicolon _ hmem
          have hsg1 : semiG1 (exportKw ++ c :: d :: (r2 ++ ';' :: trailingWs (exportKw ++ c :: d :: r))) =
              dropTrailingWs (exportKw ++ c :: d :: (r2 ++ ';' :: trailingWs (exportKw ++ c :: d :: r))) := by
            rw [semiG1, if_neg (by simp [hall])]
          have hsg1' : dropTrailingWs
                (exportKw ++ c :: d :: (r2 ++ ';' :: trailingWs (exportKw ++ c :: d :: r))) =
              (exportKw ++ c :: d :: r2) ++ [';'] := by
            have hstep1 : exportKw ++ c :: d :: (r2 ++ ';' :: trailingWs (exportKw ++ c :: d :: r)) =
                ((exportKw ++ c :: d :: r2) ++ [';']) ++ trailingWs (exportKw ++ c :: d :: r) := by
              simp
            rw [hstep1, dropTrailingWs_append_all _ _ (trailingWs_all _)]
            exact dropTrailingWs_concat_nonws _ ';' (by decide)
          rw [hsg1, hsg1']
          apply semiSkip_of_endsWith
          exact endsWithCh_trimWs_concat _ ';' (by decide)
  · have hfix : semiAddLine l = l := by rw [semiAddLine, if_neg (by simp [he])]
    rw [hfix]
    exact hfix

theorem mem_dropTrailingWs (l : List Char) (x : Char) (h : x ∈ dropTrailingWs l) :
    x ∈ l := by
  rw [← dtw_append_tws l]
  exact List.mem_append.mpr (Or.inl h)

theorem mem_trailingWs (l : List Char) (x : Char) (h : x ∈ trailingWs l) :
    x ∈ l := by
  rw [← dtw_append_tws l]
  exact List.mem_append.mpr (Or.inr h)

theorem semiAddLine_no_newline (l : List Char) (hl : '\n' ∉ l) :
    '\n' ∉ semiAddLine l := by
  rw [semiAddLine]
  by_cases he : isExportLine l = true
  · rw [if_pos he]
    by_cases hskip : semiSkip (trimWs (semiG1 l)) = true
    · rw [if_pos hskip]; exact hl
    · rw [if_neg (by simp [hskip])]
      intro hmem
      rcases List.mem_append.mp hmem with h | h
      · rw [semiG1] at h
        by_cases hB : ((l.drop 6).all isSpaceCh) = true
        · rw [if_pos hB] at h; exact hl h
        · rw [if_neg (by simp at hB; simp [hB])] at h
          exact hl (mem_dropTrailingWs l _ h)
      · rcases List.mem_cons.mp h with h1 | h2
        · cases h1
        · rw [semiG2] at h2
          by_cases hB : ((l.drop 6).all isSpaceCh) = true
          · rw [if_pos hB] at h2; cases h2
          · rw [if_neg (by simp at hB; simp [hB])] at h2
            exact hl (mem_trailingWs l _ h2)
  · rw [if_neg (by simp [he])]; exact hl

/-- Claim C8, counterexample: style post-processing is not idempotent for every
profile and text. With terminators disabled the strip pass removes one
trailing semicolon per application: on "a;;" one application yields "a;" and a
second application yields "a". -/
theorem C8_style_counterexample :
    applyStyleConfig ⟨QuoteOpt.single, false, IndentOpt.tab⟩ "a;;" = "a;" ∧
    applyStyleConfig ⟨QuoteOpt.single, false, IndentOpt.tab⟩
      (applyStyleConfig ⟨QuoteOpt.single, false, IndentOpt.tab⟩ "a;;") = "a" ∧
    applyStyleConfig ⟨QuoteOpt.single, false, IndentOpt.tab⟩
        (applyStyleConfig ⟨QuoteOpt.single, false, IndentOpt.tab⟩ "a;;") ≠
      applyStyleConfig ⟨QuoteOpt.single, false, IndentOpt.tab⟩ "a;;" := by
  refine ⟨by decide, by decide, by decide⟩

/-- Claim C8, amended: for the profile that keeps single quotes and tab
indentation unchanged and has statement terminators enabled, applying the
style pass twice yields the same text as applying it once, for every text.
(With terminators disabled the strip pass removes one trailing terminator per
application — see the counterexample — and the double-quote and tab-expansion
rewrites admit further adversarial non-idempotent inputs.) -/
theorem C8_style_idempotent_amended (content : String) :
    applyStyleConfig ⟨QuoteOpt.single, true, IndentOpt.tab⟩
      (applyStyleConfig ⟨QuoteOpt.single, true, IndentOpt.tab⟩ content) =
    applyStyleConfig ⟨QuoteOpt.single, true, IndentOpt.tab⟩ content := by
  show String.mk (mapLines semiAddLine (String.mk (mapLines semiAddLine content.data)).data) = _
  exact congrArg String.mk
    (mapLines_idem semiAddLine semiAddLine_idem semiAddLine_no_newline content.data)

/-! Generator orchestrator model (base.generator.ts, the port generator, and
service.generator.ts). Template text is supplied by the excluded
template-storage collaborator, so rendering is a parameter `render` mapping a
template path to its rendered text; `path.resolve` against the process cwd is
not modelled (the resolved directory string is taken as given), and
`path.join` is modelled for plain segments as slash concatenation. -/

theorem portGenFiles_paths (config : NestHexConfig) (render : String → String)
    (options : GeneratorOptions) :
    (portGenFiles config render options).map (fun f => f.path) = portPaths config options := by
  rw [portPaths, portGenFiles, portGenFiles]
  by_cases hs : (createTemplateContext config options).includeService = true <;>
    by_cases hm : (createTemplateContext config options).includeModule = true <;>
      simp [hs, hm]

theorem any_filter_ne (fs : FS) (p q : String) (h : q ≠ p) :
    ((fs.filter (fun e => !(e.1 = p))).any fun e => e.1 = q) =
      (fs.any fun e => e.1 = q) := by
  induction fs with
  | nil => rfl
  | cons e rest ih =>
    rw [List.filter_cons, List.any_cons]
    by_cases hep : e.1 = p
    · simp only [hep, decide_eq_true_eq]
      rw [if_neg (by simp)]
      rw [ih]
      have hpq : (decide (p = q)) = false := by
        simp only [decide_eq_false_iff_not]
        exact fun x => h x.symm
      rw [hpq]
      simp
    · rw [if_pos (by simp [hep]), List.any_cons, ih]

theorem existsFile_setFile_self (fs : FS) (p c : String) :
    existsFile (setFile fs p c) p = true := by
  rw [setFile, existsFile, List.any_cons]
  simp

theorem existsFile_setFile_ne (fs : FS) (p c q : String) (h : q ≠ p) :
    existsFile (setFile fs p c) q = existsFile fs q := by
  rw [setFile, existsFile, List.any_cons, existsFile]
  have h1 : (decide (p = q)) = false := by
    simp only [decide_eq_false_iff_not]
    exact fun x => h x.symm
  rw [h1, Bool.false_or]
  exact any_filter_ne fs p q h

theorem existsFile_setFile_mono (fs : FS) (p c q : String)
    (h : existsFile fs q = true) : existsFile (setFile fs p c) q = true := by
  by_cases hq : q = p
  · subst hq; exact existsFile_setFile_self fs q c
  · rw [existsFile_setFile_ne fs p c q hq]; exact h

theorem writeFile_conflict_eq (fs : FS) (p c : String)
    (h : existsFile fs p = true) :
    writeFile fs p c ⟨false, false⟩ =
      ({ success := false, path := p, existed := true, written := false,
         message := some conflictMsg }, fs) := by
  rw [writeFile]
  simp [h]

theorem writeFile_fresh_eq (fs : FS) (p c : String)
    (h : existsFile fs p = false) :
    writeFile fs p c ⟨false, false⟩ =
      ({ success := true, path := p, existed := false, written := true,
         message := some "File created" }, setFile fs p c) := by
  rw [writeFile]
  simp [h]

theorem writeFile_dry_eq (fs : FS) (p c : String) (force : Bool) :
    writeFile fs p c ⟨force, true⟩ =
      ({ success := true, path := p, existed := existsFile fs p, written := false,
         message := some dryRunMsg }, fs) := by
  rw [writeFile]
  cases force <;> cases he : existsFile fs p <;> simp [he]

theorem generateFilesGo_conflict (files : List FileToGenerate) (fs : FS)
    (gen : List String) (fails : List (String × String))
    (hall : ∀ f ∈ files, existsFile fs f.path = true) :
    generateFilesGo false false files fs gen fails =
      generateFilesGo false false [] fs gen
        ((files.map (fun f => (f.path, conflictMsg))).reverse ++ fails) := by
  induction files generalizing fails with
  | nil => simp
  | cons f rest ih =>
    conv_lhs => rw [generateFilesGo]
    rw [writeFile_conflict_eq fs f.path f.content (hall f (by simp))]
    simp only [Option.getD_some]
    rw [if_neg (by simp)]
    rw [ih _ (fun x hx => hall x (by simp [hx]))]
    congr 1
    simp

theorem generateFilesGo_dry (files : List FileToGenerate) (fs : FS)
    (gen : List String) (force : Bool) :
    generateFilesGo true force files fs gen [] =
      (Except.ok (gen.reverse ++ files.map (fun f => f.path)), fs) := by
  induction files generalizing gen with
  | nil => simp [generateFilesGo]
  | cons f rest ih =>
    rw [generateFilesGo, writeFile_dry_eq fs f.path f.content force]
    rw [if_pos (by simp)]
    rw [ih]
    simp

theorem generateFilesGo_fresh (files : List FileToGenerate) (fs : FS)
    (gen : List String)
    (hnodup : (files.map (fun f => f.path)).Nodup)
    (hnone : ∀ f ∈ files, existsFile fs f.path = false) :
    ∃ fs2,
      generateFilesGo false false files fs gen [] =
        (Except.ok (gen.reverse ++ files.map (fun f => f.path)), fs2) ∧
      ∀ p, (p ∈ files.map (fun f => f.path) ∨ existsFile fs p = true) →
        existsFile fs2 p = true := by
  induction files generalizing fs gen with
  | nil =>
    refine ⟨fs, by simp [generateFilesGo], ?_⟩
    intro p hp
    rcases hp with h | h
    · simp at h
    · exact h
  | cons f rest ih =>
    rw [generateFilesGo, writeFile_fresh_eq fs f.path f.content (hnone f (by simp))]
    rw [if_pos (by simp)]
    have hnodup' : (rest.map (fun f => f.path)).Nodup := by
      rw [List.map_cons, List.nodup_cons] at hnodup
      exact hnodup.2
    have hne : ∀ x ∈ rest, x.path ≠ f.path := by
      intro x hx hxe
      rw [List.map_cons, List.nodup_cons] at hnodup
      exact hnodup.1 (hxe ▸ List.mem_map.mpr ⟨x, hx, rfl⟩)
    obtain ⟨fs2, heq, hmem⟩ := ih (setFile fs f.path f.content) (f.path :: gen) hnodup'
      (fun x hx => by
        rw [existsFile_setFile_ne fs f.path f.content x.path (hne x hx)]
        exact hnone x (by simp [hx]))
    refine ⟨fs2, ?_, ?_⟩
    · rw [heq]
      simp
    · intro p hp
      rcases hp with h | h
      · rw [List.map_cons, List.mem_cons] at h
        rcases h with rfl | h
        · exact hmem _ (Or.inr (existsFile_setFile_self fs _ f.content))
        · exact hmem p (Or.inl h)
      · exact hmem p (Or.inr (existsFile_setFile_mono fs f.path f.content p h))

theorem generateFiles_conflict (files : List FileToGenerate) (fs : FS)
    (hall : ∀ f ∈ files, existsFile fs f.path = true) (hne : files ≠ []) :
    generateFiles files fs false false =
      (Except.error
        ("Failed to generate " ++ toString files.length ++ " file(s):\n" ++
          joinStrings "\n" (files.map (fun f => "  - " ++ f.path ++ ": " ++ conflictMsg))), fs) := by
  rw [generateFiles, generateFilesGo_conflict files fs [] [] hall]
  rw [generateFilesGo]
  rw [if_neg (by
    simp only [List.append_nil, List.isEmpty_eq_true, List.reverse_eq_nil_iff, List.map_eq_nil_iff]
    simp [hne])]
  simp only [List.append_nil, List.reverse_reverse, List.length_reverse, List.length_map,
    List.map_map]
  have hmap : files.map ((fun f : String × String => "  - " ++ f.1 ++ ": " ++ f.2) ∘
        (fun f : FileToGenerate => (f.path, conflictMsg))) =
      files.map (fun f : FileToGenerate => "  - " ++ f.path ++ ": " ++ conflictMsg) :=
    List.map_congr_left (fun f _ => rfl)
  rw [hmap]

theorem containsStr_append_left (a hay sub : String) (h : containsStr hay sub) :
    containsStr (a ++ hay) sub := by
  obtain ⟨l, r, rfl⟩ := h
  exact ⟨a ++ l, r, by simp [String.append_assoc]⟩

theorem joinStrings_cons (sep s : String) (rest : List String) (h : rest ≠ []) :
    joinStrings sep (s :: rest) = s ++ sep ++ joinStrings sep rest := by
  cases rest with
  | nil => exact absurd rfl h
  | cons t u => rfl

theorem mem_joinStrings_contains (sep : String) (l : List String) (a b x : String)
    (hx : x ∈ l) : containsStr (joinStrings sep (l.map (fun p => a ++ p ++ b))) x := by
  induction l with
  | nil => simp at hx
  | cons y rest ih =>
    rcases List.mem_cons.mp hx with rfl | hx2
    · by_cases hz : rest = []
      · subst hz
        exact ⟨a, b, rfl⟩
      · rw [List.map_cons, joinStrings_cons sep _ _ (by simp [hz])]
        exact ⟨a, b ++ sep ++ joinStrings sep (rest.map (fun p => a ++ p ++ b)),
          by simp [String.append_assoc]⟩
    · by_cases hz : rest = []
      · subst hz; simp at hx2
      · rw [List.map_cons, joinStrings_cons sep _ _ (by simp [hz])]
        obtain ⟨l2, r2, heq⟩ := ih hx2
        exact ⟨(a ++ y ++ b) ++ sep ++ l2, r2, by rw [heq]; simp [String.append_assoc]⟩

theorem append_left_ne (pre s t : String) (h : s ≠ t) : pre ++ s ≠ pre ++ t := by
  intro he
  have hd := congrArg String.data he
  rw [String.data_append, String.data_append] at hd
  exact h (String.ext (List.append_cancel_left hd))

theorem append_mid_ne (pre fn s t : String) (hlen : t.data.length ≤ s.data.length)
    (h : s ≠ t) : pre ++ (fn ++ s) ≠ pre ++ t := by
  intro he
  have hd := congrArg String.data he
  rw [String.data_append, String.data_append] at hd
  have h2 : (fn ++ s).data = t.data := List.append_cancel_left hd
  rw [String.data_append] at h2
  have hlen2 : fn.data.length + s.data.length = t.data.length := by
    rw [← h2]; simp
  have hfn : fn.data = [] := by
    have : fn.data.length = 0 := by omega
    exact List.eq_nil_of_length_eq_zero this
  rw [hfn, List.nil_append] at h2
  exact h (String.ext h2)

theorem portPaths_eq_spec (config : NestHexConfig) (options : GeneratorOptions) :
    portPaths config options = portPathsSpec config options := by
  rw [portPaths, portGenFiles, portPathsSpec]
  by_cases hs : options.includeService.getD true = true <;>
    by_cases hm : options.includeModule.getD true = true <;>
      simp [createTemplateContext, hs, hm, resolvePath]

theorem portPathsSpec_nodup (config : NestHexConfig) (options : GeneratorOptions) :
    (portPathsSpec config options).Nodup := by
  rw [portPathsSpec]
  set fn := getFileName options.name (config.fileCase.getD FileCase.kebab) with hfn
  set dir := joinPath (options.outputPath.getD (config.portsDir.getD "src/ports")) fn with hdir
  have hne2 : ∀ s t : String, s ≠ t → joinPath dir (fn ++ s) ≠ joinPath dir (fn ++ t) := by
    intro s t hst
    rw [joinPath, joinPath]
    exact append_left_ne _ _ _ (append_left_ne fn s t hst)
  have hne1 : ∀ s t : String, t.data.length ≤ s.data.length → s ≠ t →
      joinPath dir (fn ++ s) ≠ joinPath dir t := by
    intro s t hl hst
    rw [joinPath, joinPath]
    exact append_mid_ne _ fn s t hl hst
  by_cases hs : options.includeService.getD true = true <;>
    by_cases hm : options.includeModule.getD true = true <;>
      simp [hs, hm, List.nodup_cons, List.mem_cons, List.mem_singleton]
  all_goals
    repeat' apply And.intro
  all_goals
    first
      | exact hne2 _ _ (by decide)
      | exact hne1 _ _ (by decide) (by decide)

/-- Claim C2, amended: when every target file of a port generation already
exists and neither force nor dryRun is set, the call does not return a
GenerationResult value; it raises (modelled as Except.error) an aggregate
error whose message lists every conflicting path, and the previously written
files are unmodified. The spec's statement that a GenerationResult with
success=false is returned as a value is refuted by the counterexample. -/
theorem C2_second_generate_amended (config : NestHexConfig) (render : String → String)
    (options : GeneratorOptions) (fs : FS)
    (hdry : options.dryRun.getD false = false)
    (hall : ∀ p ∈ portPaths config options, existsFile fs p = true) :
    ∃ e, portGenerate config render options fs = (Except.error e, fs) ∧
      ∀ p ∈ portPaths config options, containsStr e p := by
  have hallf : ∀ f ∈ portGenFiles config render options, existsFile fs f.path = true := by
    intro f hf
    exact hall f.path (by
      rw [← portGenFiles_paths config render options]
      exact List.mem_map.mpr ⟨f, hf, rfl⟩)
  have hfne : portGenFiles config render options ≠ [] := by
    rw [portGenFiles]
    simp
  refine ⟨"Failed to generate " ++ toString (portGenFiles config render options).length ++
      " file(s):\n" ++ joinStrings "\n" ((portGenFiles config render options).map
        (fun f => "  - " ++ f.path ++ ": " ++ conflictMsg)), ?_, ?_⟩
  · simp only [portGenerate]
    rw [hdry, generateFiles_conflict _ fs hallf hfne]
  · intro p hp
    apply containsStr_append_left
    have hmap : (portGenFiles config render options).map
          (fun f => "  - " ++ f.path ++ ": " ++ conflictMsg) =
        (portPaths config options).map (fun q => "  - " ++ q ++ (": " ++ conflictMsg)) := by
      rw [← portGenFiles_paths config render options, List.map_map]
      exact List.map_congr_left (fun f _ => by simp [String.append_assoc])
    rw [hmap]
    exact mem_joinStrings_contains "\n" (portPaths config options) "  - "
      (": " ++ conflictMsg) p hp

/-- Witness for C2_second_generate_amended: both port files of a minimal
generation already exist, so the second call errors and the filesystem is
untouched. -/
theorem C2_second_generate_amended_witness :
    ∃ e, portGenerate {} (fun _ => "")
        { name := "a", outputPath := some "o" }
        [("o/a/a.port.ts", "x"), ("o/a/a.token.ts", "x"), ("o/a/a.service.ts", "x"),
         ("o/a/a.module.ts", "x"), ("o/a/index.ts", "x")] =
      (Except.error e,
        [("o/a/a.port.ts", "x"), ("o/a/a.token.ts", "x"), ("o/a/a.service.ts", "x"),
         ("o/a/a.module.ts", "x"), ("o/a/index.ts", "x")]) ∧
    ∀ p ∈ portPaths {} { name := "a", outputPath := some "o" }, containsStr e p :=
  C2_second_generate_amended {} (fun _ => "") { name := "a", outputPath := some "o" }
    [("o/a/a.port.ts", "x"), ("o/a/a.token.ts", "x"), ("o/a/a.service.ts", "x"),
     ("o/a/a.module.ts", "x"), ("o/a/index.ts", "x")] (by decide) (by decide)

/-- Claim C2, counterexample: the second generation for the same name does not
return a GenerationResult value with success=false — it raises the aggregate
error (Except.error in this model), though the existing files are indeed left
unmodified. -/
theorem C2_second_generate_counterexample :
    isErr (portGenerate {} (fun _ => "")
        { name := "a", outputPath := some "o" }
        [("o/a/a.port.ts", "x"), ("o/a/a.token.ts", "x"), ("o/a/a.service.ts", "x"),
         ("o/a/a.module.ts", "x"), ("o/a/index.ts", "x")]).1 = true ∧
    (portGenerate {} (fun _ => "")
        { name := "a", outputPath := some "o" }
        [("o/a/a.port.ts", "x"), ("o/a/a.token.ts", "x"), ("o/a/a.service.ts", "x"),
         ("o/a/a.module.ts", "x"), ("o/a/index.ts", "x")]).2 =
      [("o/a/a.port.ts", "x"), ("o/a/a.token.ts", "x"), ("o/a/a.service.ts", "x"),
       ("o/a/a.module.ts", "x"), ("o/a/index.ts", "x")] := by
  refine ⟨by decide, by decide⟩

/-- Claim C3, counterexample: a dry run does not report the same per-file
outcome as a real run. With the target existing and force=false, the real run
reports a conflict (success=false) while the dry run reports success=true. -/
theorem C3_dryrun_counterexample :
    (writeFile [("p", "x")] "p" "y" ⟨false, true⟩).1.success = true ∧
    (writeFile [("p", "x")] "p" "y" ⟨false, false⟩).1.success = false := by
  refine ⟨by decide, by decide⟩

/-- Claim C3, amended: with dryRun=true no filesystem entry is created or
modified and every per-file result reports success=true with written=false and
the actual existed flag — conflicts are not detected in dry-run mode, so the
per-file success need not match a real run's; at the generator level a dry-run
port generation returns the full file list and leaves the filesystem
unchanged regardless of existing targets. -/
theorem C3_dryrun_amended :
    (∀ (fs : FS) (p c : String) (force : Bool),
      writeFile fs p c ⟨force, true⟩ =
        ({ success := true, path := p, existed := existsFile fs p, written := false,
           message := some dryRunMsg }, fs)) ∧
    (∀ (config : NestHexConfig) (render : String → String)
        (options : GeneratorOptions) (fs : FS),
      options.dryRun = some true →
      portGenerate config render options fs =
        (Except.ok
          { success := true, files := portPaths config options,
            message := "Successfully generated port files for " ++
              (generateNameVariations options.name).pascal }, fs)) := by
  constructor
  · exact writeFile_dry_eq
  · intro config render options fs hdry
    simp only [portGenerate]
    rw [hdry]
    rw [show (some true).getD false = true from rfl]
    rw [generateFiles, generateFilesGo_dry (portGenFiles config render options) fs []]
    rw [portGenFiles_paths config render options]
    simp [createTemplateContext]

/-- Witness for C3_dryrun_amended: a dry-run port generation over a filesystem
that already contains one of the targets still succeeds with the full file
list and writes nothing. -/
theorem C3_dryrun_amended_witness :
    portGenerate {} (fun _ => "")
        { name := "a", outputPath := some "o", dryRun := some true }
        [("o/a/a.port.ts", "x")] =
      (Except.ok
        { success := true,
          files := portPaths {} { name := "a", outputPath := some "o", dryRun := some true },
          message := "Successfully generated port files for " ++
            (generateNameVariations "a").pascal },
        [("o/a/a.port.ts", "x")]) :=
  (C3_dryrun_amended).2 {} (fun _ => "")
    { name := "a", outputPath := some "o", dryRun := some true }
    [("o/a/a.port.ts", "x")] rfl

/-- Claim C6: force overwrite is broken in the port generator. The file writer
itself honors force=true (it overwrites and reports success with
existed=true), but PortGenerator.generate never forwards options.force to
generateFiles, so a forced regeneration over existing files still fails with
the conflict error and modifies nothing — contradicting the spec, the CLI's
`--force` documentation, and the adapter-generator tests. -/
theorem C6_force_not_forwarded_bug :
    (writeFile [("o/a/a.port.ts", "old")] "o/a/a.port.ts" "new" ⟨true, false⟩).1.success
        = true ∧
    (writeFile [("o/a/a.port.ts", "old")] "o/a/a.port.ts" "new" ⟨true, false⟩).1.written
        = true ∧
    (writeFile [("o/a/a.port.ts", "old")] "o/a/a.port.ts" "new" ⟨true, false⟩).1.existed
        = true ∧
    isErr (portGenerate {} (fun _ => "new")
        { name := "a", outputPath := some "o", force := some true }
        [("o/a/a.port.ts", "old"), ("o/a/a.token.ts", "old"), ("o/a/a.service.ts", "old"),
         ("o/a/a.module.ts", "old"), ("o/a/index.ts", "old")]).1 = true ∧
    (portGenerate {} (fun _ => "new")
        { name := "a", outputPath := some "o", force := some true }
        [("o/a/a.port.ts", "old"), ("o/a/a.token.ts", "old"), ("o/a/a.service.ts", "old"),
         ("o/a/a.module.ts", "old"), ("o/a/index.ts", "old")]).2 =
      [("o/a/a.port.ts", "old"), ("o/a/a.token.ts", "old"), ("o/a/a.service.ts", "old"),
       ("o/a/a.module.ts", "old"), ("o/a/index.ts", "old")] := by
  refine ⟨by decide, by decide, by decide, by decide, by decide⟩

/-- Claim C7, counterexample: the file-naming case is not respected by every
generator kind. With fileCase=pascal and name "object-storage", the service
generator still names its directory and file with the kebab casing
(object-storage.service.ts) instead of ObjectStorage.service.ts. -/
theorem C7_filenames_counterexample :
    (serviceGenerate { fileCase := some FileCase.pascal } (fun _ => "")
        { name := "object-storage", outputPath := some "out" } []).1 =
      Except.ok
        { success := true,
          files := ["out/object-storage/object-storage.service.ts"],
          message := "Successfully generated 1 service file" } ∧
    ("out/object-storage/object-storage.service.ts" : String) ≠
      "out/ObjectStorage/ObjectStorage.service.ts" := by
  refine ⟨by decide, by decide⟩

/-- Claim C7, amended: the port generator names its directory and every file
basename with the primary name cased per the configured file-naming case
(directory `<fn>`, files `<fn>.port.ts`, `<fn>.token.ts`, optional
`<fn>.service.ts` and `<fn>.module.ts`, manifest `index.ts`), and a
conflict-free generation writes exactly those paths and reports success; the
service generator, however, always uses the kebab casing for its directory
and basename, ignoring the configured file case. -/
theorem C7_filenames_amended (config : NestHexConfig) (render : String → String)
    (options : GeneratorOptions) (fs : FS)
    (hdry : options.dryRun.getD false = false)
    (hnone : ∀ p ∈ portPaths config options, existsFile fs p = false) :
    (∃ fs2,
      portGenerate config render options fs =
        (Except.ok
          { success := true, files := portPaths config options,
            message := "Successfully generated port files for " ++
              (generateNameVariations options.name).pascal }, fs2) ∧
      ∀ p ∈ portPaths config options, existsFile fs2 p = true) ∧
    portPaths config options = portPathsSpec config options ∧
    (serviceGenFiles config render options).map (fun f => f.path) =
      [joinPath
        (joinPath (options.outputPath.getD (config.portsDir.getD "src/services"))
          (generateNameVariations options.name).kebab)
        ((generateNameVariations options.name).kebab ++ ".service.ts")] := by
  refine ⟨?_, portPaths_eq_spec config options, ?_⟩
  · have hnodup : ((portGenFiles config render options).map (fun f => f.path)).Nodup := by
      rw [portGenFiles_paths config render options, portPaths_eq_spec config options]
      exact portPathsSpec_nodup config options
    have hnonef : ∀ f ∈ portGenFiles config render options, existsFile fs f.path = false := by
      intro f hf
      exact hnone f.path (by
        rw [← portGenFiles_paths config render options]
        exact List.mem_map.mpr ⟨f, hf, rfl⟩)
    obtain ⟨fs2, heq, hmem⟩ :=
      generateFilesGo_fresh (portGenFiles config render options) fs [] hnodup hnonef
    refine ⟨fs2, ?_, ?_⟩
    · simp only [portGenerate]
      rw [hdry, generateFiles, heq]
      rw [portGenFiles_paths config render options]
      simp [createTemplateContext]
    · intro p hp
      exact hmem p (Or.inl (by
        rw [portGenFiles_paths config render options]
        exact hp))
  · simp [serviceGenFiles, createTemplateContext, resolvePath]

/-- Witness for C7_filenames_amended: a fresh pascal-cased port generation for
"object-storage" writes the ObjectStorage-named paths and succeeds. -/
theorem C7_filenames_amended_witness :
    ∃ fs2,
      portGenerate { fileCase := some FileCase.pascal } (fun _ => "")
          { name := "object-storage", outputPath := some "out" } [] =
        (Except.ok
          { success := true,
            files := portPaths { fileCase := some FileCase.pascal }
              { name := "object-storage", outputPath := some "out" },
            message := "Successfully generated port files for " ++
              (generateNameVariations "object-storage").pascal }, fs2) ∧
      ∀ p ∈ portPaths { fileCase := some FileCase.pascal }
          { name := "object-storage", outputPath := some "out" },
        existsFile fs2 p = true :=
  (C7_filenames_amended { fileCase := some FileCase.pascal } (fun _ => "")
    { name := "object-storage", outputPath := some "out" } [] (by decide) (by decide)).1

/-! Path resolver model (src/cli/utils/path-resolver.ts). Paths are modelled
as segment lists of already-normalized paths sharing one root; `path.resolve`
against the process cwd is not modelled. `getRelativePath` is `path.relative`
of the two rendered paths (drop the common segment prefix, one ".." per
remaining source segment) followed by the backslash-to-slash replacement;
`getImportPath` takes the dirname of the source (dropLast), strips a trailing
.ts/.js extension, and prefixes "./" when the result does not already start
with a '.' character. -/

theorem commonPrefixLen_append (l x : List String) :
    commonPrefixLen l (l ++ x) = l.length := by
  induction l with
  | nil => cases x <;> rfl
  | cons a as ih =>
    rw [List.cons_append, commonPrefixLen]
    simp [ih]

theorem replaceBackslash_no_bs (s : String) : '\\' ∉ (replaceBackslash s).data := by
  rw [replaceBackslash]
  intro h
  obtain ⟨x, _, hx⟩ := List.mem_map.mp h
  by_cases hb : x = '\\'
  · rw [if_pos hb] at hx; cases hx
  · rw [if_neg hb] at hx; exact hb hx

theorem replaceBackslash_id (s : String) (h : '\\' ∉ s.data) :
    replaceBackslash s = s := by
  rw [replaceBackslash]
  apply String.ext
  show s.data.map _ = s.data
  have : s.data.map (fun c => if c = '\\' then '/' else c) =
      s.data.map (fun c => c) :=
    List.map_congr_left (fun c hc => by
      rw [if_neg (fun he => h (by rw [← he]; exact hc))])
  rw [this]
  simp

theorem mem_stripExtL (cs : List Char) (x : Char) (h : x ∈ stripExtL cs) : x ∈ cs := by
  rw [stripExtL] at h
  by_cases hc : (cs.drop (cs.length - 3) = ['.', 't', 's'] ∨
      cs.drop (cs.length - 3) = ['.', 'j', 's'])
  · rw [if_pos hc] at h
    exact List.mem_of_mem_take h
  · rw [if_neg hc] at h
    exact h

theorem stripExtL_dotdot (cs' : List Char) (h : cs' = [] ∨ ∃ t, cs' = '/' :: t) :
    ∃ rest, stripExtL ('.' :: '.' :: cs') = '.' :: '.' :: rest := by
  rcases h with rfl | ⟨t, rfl⟩
  · exact ⟨[], by decide⟩
  · cases t with
    | nil => exact ⟨['/'], by decide⟩
    | cons x t2 =>
      cases t2 with
      | nil =>
        refine ⟨['/', x], ?_⟩
        have hcond : ¬ (('.' :: '.' :: '/' :: [x] : List Char).drop
            (('.' :: '.' :: '/' :: [x] : List Char).length - 3) = ['.', 't', 's'] ∨
            ('.' :: '.' :: '/' :: [x] : List Char).drop
            (('.' :: '.' :: '/' :: [x] : List Char).length - 3) = ['.', 'j', 's']) := by
          simp
        rw [stripExtL, if_neg hcond]
      | cons y t3 =>
        by_cases hc : (('.' :: '.' :: '/' :: x :: y :: t3).drop
              (('.' :: '.' :: '/' :: x :: y :: t3).length - 3) = ['.', 't', 's'] ∨
            ('.' :: '.' :: '/' :: x :: y :: t3).drop
              (('.' :: '.' :: '/' :: x :: y :: t3).length - 3) = ['.', 'j', 's'])
        · refine ⟨('/' :: x :: y :: t3).take (t3.length + 0), ?_⟩
          rw [stripExtL, if_pos hc]
          have hlen : ('.' :: '.' :: '/' :: x :: y :: t3 : List Char).length - 3 =
              t3.length + 2 := by
            simp only [List.length_cons]
            omega
          rw [hlen]
          simp [List.take_succ_cons]
        · exact ⟨'/' :: x :: y :: t3, by rw [stripExtL, if_neg hc]⟩

/-- Claim C10, counterexample: the "./" prefix rule and the extension rule do
not hold as stated. A same-directory target named ".hidden.ts" yields
".hidden" — not "./.hidden" — because the code only tests whether the result
already starts with a '.' character, not with a traversal segment; and a
".json" extension is not stripped (only .ts and .js are). -/
theorem C10_import_path_counterexample :
    getImportPathSegs ["a", "x.ts"] ["a", ".hidden.ts"] = ".hidden" ∧
    getImportPathSegs ["a", "x.ts"] ["a", ".hidden.ts"] ≠ "./.hidden" ∧
    getImportPathSegs ["a", "x.ts"] ["a", "b.json"] = "./b.json" ∧
    getImportPathSegs ["a", "x.ts"] ["a", "b.json"] ≠ "./b" := by
  refine ⟨by decide, by decide, by decide, by decide⟩

/-- Claim C10, amended: the computed import reference is the relative path
from the directory of "from" to "to" rendered with forward slashes — it never
contains a backslash — with a trailing .ts or .js extension stripped (other
extensions are kept), and prefixed with "./" when the result does not already
start with a '.' character; in particular a same-directory target yields
"./<name without .ts/.js>" unless the stripped name itself starts with '.',
and a target above the source directory yields a result beginning with "..". -/
theorem C10_import_path_amended (fromP toP : List String) :
    ('\\' ∉ (getImportPathSegs fromP toP).data) ∧
    (∀ name : String, toP = fromP.dropLast ++ [name] → '\\' ∉ name.data →
      getImportPathSegs fromP toP =
        (if startsWithDot (stripExtL name.data) then String.mk (stripExtL name.data)
         else "./" ++ String.mk (stripExtL name.data))) ∧
    (commonPrefixLen fromP.dropLast toP < fromP.dropLast.length →
      ∃ rest, (getImportPathSegs fromP toP).data = '.' :: '.' :: rest) := by
  refine ⟨?_, ?_, ?_⟩
  · rw [getImportPathSegs]
    have hrel : '\\' ∉ (getRelativePathSegs fromP.dropLast toP).data :=
      replaceBackslash_no_bs _
    have hw : '\\' ∉ stripExtL (getRelativePathSegs fromP.dropLast toP).data :=
      fun h => hrel (mem_stripExtL _ _ h)
    by_cases hd : startsWithDot (stripExtL (getRelativePathSegs fromP.dropLast toP).data) = true
    · rw [if_pos hd]
      exact hw
    · rw [if_neg hd]
      rw [String.data_append]
      intro h
      rcases List.mem_append.mp h with h1 | h1
      · simp at h1
      · exact hw h1
  · intro name heq hnb
    rw [getImportPathSegs, getRelativePathSegs, relSegs, heq,
      commonPrefixLen_append fromP.dropLast [name]]
    rw [Nat.sub_self, List.replicate_zero, List.nil_append,
      List.drop_left fromP.dropLast [name]]
    rw [show renderSlash [name] = name from rfl]
    rw [replaceBackslash_id name hnb]
  · intro hlt
    rw [getImportPathSegs, getRelativePathSegs, relSegs]
    obtain ⟨m, hm⟩ : ∃ m, fromP.dropLast.length - commonPrefixLen fromP.dropLast toP =
        m + 1 :=
      ⟨fromP.dropLast.length - commonPrefixLen fromP.dropLast toP - 1, by omega⟩
    rw [hm, List.replicate_succ, List.cons_append]
    set rest0 := List.replicate m ".." ++ toP.drop (commonPrefixLen fromP.dropLast toP)
      with hrest0
    cases hre : rest0 with
    | nil =>
      rw [show renderSlash (".." :: []) = ".." from rfl]
      rw [replaceBackslash_id ".." (by decide)]
      refine ⟨[], ?_⟩
      rw [show stripExtL (".." : String).data = ('.' :: '.' :: [] : List Char) from by decide]
      rfl
    | cons s rest1 =>
      rw [renderSlash, joinStrings_cons "/" ".." (s :: rest1) (by simp)]
      have hdata : ((".." : String) ++ "/" ++ joinStrings "/" (s :: rest1)).data =
          '.' :: '.' :: '/' :: (joinStrings "/" (s :: rest1)).data := by
        rw [String.data_append, String.data_append]
        rfl
      rw [replaceBackslash]
      rw [hdata]
      simp only [List.map_cons]
      rw [show (if ('.' : Char) = '\\' then '/' else '.') = '.' from by decide]
      rw [show (if ('/' : Char) = '\\' then '/' else '/') = '/' from by decide]
      obtain ⟨rest2, hr2⟩ := stripExtL_dotdot
        ('/' :: (joinStrings "/" (s :: rest1)).data.map (fun c => if c = '\\' then '/' else c))
        (Or.inr ⟨_, rfl⟩)
      rw [hr2]
      rw [if_pos (by rw [startsWithDot])]
      exact ⟨rest2, rfl⟩

/-- Witness for C10_import_path_amended: a same-directory .ts target gets the
"./" prefix and an upward target begins with "..". -/
theorem C10_import_path_amended_witness :
    getImportPathSegs ["src", "ports", "x.ts"] ["src", "ports", "storage.ts"] =
      (if startsWithDot (stripExtL ("storage.ts" : String).data)
       then String.mk (stripExtL ("storage.ts" : String).data)
       else "./" ++ String.mk (stripExtL ("storage.ts" : String).data)) ∧
    ∃ rest, (getImportPathSegs ["src", "adapters", "s3", "a.ts"] ["src", "ports"]).data =
      '.' :: '.' :: rest :=
  ⟨(C10_import_path_amended ["src", "ports", "x.ts"] ["src", "ports", "storage.ts"]).2.1
      "storage.ts" (by decide) (by decide),
    (C10_import_path_amended ["src", "adapters", "s3", "a.ts"] ["src", "ports"]).2.2
      (by decide)⟩
